import Mathlib

/-!
Shallow embedding of the rdf-proofs library (src/signature.rs, src/verify_proof.rs,
src/blind_signature.rs, src/derive_proof.rs, src/vc.rs) in Lean 4, together with
theorems settling the frozen claims about its specification.

External collaborators (the rdf-canon canonicalizer, the arkworks BLS12-381
hash-to-field, the bbs_plus and proof_system crates, the multibase/CBOR envelope,
the oxsdatatypes xsd:dateTime parser) are out of scope of the specification and are
modelled as deterministic abstract functions: hash-to-field as a free injective
constructor, signatures and zero-knowledge proofs as records of their defining data,
canonicalization as a deterministic sort with the identity blank-node relabelling.
Everything else is translated statement-by-statement from the Rust source.
-/

namespace RDFProofs

/-- Scalar field element of BLS12-381 (`Fr`). The arkworks
`DefaultFieldHasher::hash_to_field` with the `MAP_TO_SCALAR_AS_HASH_DST` tag is an
external primitive; it is modelled as the free constructor `hashStr` applied to the
hashed byte string (term serializations, the `DELIMITER` constant and holder
secrets are all hashed through this single function in the source), which makes the
model collision-free. `fromNat` models `Fr::from(n)`. -/
inductive Fr where
  | fromNat (n : Nat) : Fr
  | hashStr (s : String) : Fr
deriving DecidableEq, Repr

/-- Model of `bbs_plus::SignatureG1`: a BBS+ signature is recorded as the data that
determines whether the primitive `verify` accepts it — the signed message vector,
the signing key identifier and the parameter count it was produced under. -/
structure BBSSig where
  msgs : List Fr
  sk : String
  paramsN : Nat
deriving DecidableEq, Repr

/-- Lexical content of an RDF literal. `sigVal` models a multibase/CBOR-encoded
signature payload carried in a `proofValue` literal: the external multibase +
ark-serialize envelope is modelled as a perfect (injective) encoding. -/
inductive LitVal where
  | str (s : String) : LitVal
  | sigVal (sg : BBSSig) : LitVal
deriving DecidableEq, Repr

/-- Model of `oxrdf::Literal`: lexical form, optional datatype IRI, optional
language tag (matching `Literal::destruct`). -/
structure Lit where
  lexical : LitVal
  datatype : Option String
  language : Option String
deriving DecidableEq, Repr

/-- Value of `Literal::value()`: the lexical form as a string. -/
def Lit.valueStr (l : Lit) : String :=
  match l.lexical with
  | .str s => s
  | .sigVal _ => "OPAQUE-SIGNATURE-PAYLOAD"

/-- Model of `oxrdf::Subject` (no RDF-star: the `rdf-star` feature is off). -/
inductive RdfSubject where
  | namedNode (iri : String) : RdfSubject
  | blankNode (id : String) : RdfSubject
deriving DecidableEq, Repr

/-- Model of `oxrdf::Term` (no RDF-star). -/
inductive RdfTerm where
  | namedNode (iri : String) : RdfTerm
  | blankNode (id : String) : RdfTerm
  | literal (l : Lit) : RdfTerm
deriving DecidableEq, Repr

/-- Model of `oxrdf::Triple`; the predicate is a named node, kept as its IRI. -/
structure Triple where
  subject : RdfSubject
  predicate : String
  object : RdfTerm
deriving DecidableEq, Repr

/-- Model of `oxrdf::Graph` as its triple list; oxrdf's sorted-set iteration order
is abstracted as the list order, and `insert` as append (the code paths proved
here never insert a duplicate). -/
abbrev Graph := List Triple

def RdfSubject.toTerm : RdfSubject → RdfTerm
  | .namedNode i => .namedNode i
  | .blankNode b => .blankNode b

/-- N-Triples-style serialization of a literal, as used by `Term::to_string`. -/
def Lit.toNt (l : Lit) : String :=
  let core := "\"" ++ l.valueStr ++ "\""
  match l.datatype, l.language with
  | some dt, _ => core ++ "^^<" ++ dt ++ ">"
  | none, some lang => core ++ "@" ++ lang
  | none, none => core

/-- Model of `Term::to_string`: the canonical N-Triples lexical form whose bytes
are fed to the hash-to-field primitive. -/
def RdfTerm.toNt : RdfTerm → String
  | .namedNode i => "<" ++ i ++ ">"
  | .blankNode b => "_:" ++ b
  | .literal l => l.toNt

def Triple.toNt (t : Triple) : String :=
  t.subject.toTerm.toNt ++ " <" ++ t.predicate ++ "> " ++ t.object.toNt

/- RDF vocabulary constants used by the source (`context.rs` / `constants.rs`). -/

def rdfTYPE : String := "http://www.w3.org/1999/02/22-rdf-syntax-ns#type"

def DATA_INTEGRITY_PROOF : RdfTerm :=
  .namedNode "https://w3id.org/security#DataIntegrityProof"

def CRYPTOSUITE : String := "https://w3id.org/security#cryptosuite"

def CREATED : String := "http://purl.org/dc/terms/created"

def VERIFICATION_METHOD : String := "https://w3id.org/security#verificationMethod"

def PROOF_VALUE : String := "https://w3id.org/security#proofValue"

def CHALLENGE : String := "https://w3id.org/security#challenge"

def DOMAIN : String := "https://w3id.org/security#domain"

def XSD_DATE_TIME : String := "http://www.w3.org/2001/XMLSchema#dateTime"

def CRYPTOSUITE_SIGN : String := "bbs-termwise-signature-2023"

def CRYPTOSUITE_BOUND_SIGN : String := "bbs-termwise-bound-signature-2023"

/-- Error type of the library. `error.rs` is not under src/; the variants are
modelled from the spec's error taxonomy (section 7) and from every construction
site visible in the five source files. The domain-coherence variants
(`MissingDomainInVP`, `MissingDomainInRequest`, `MismatchedDomain`) appear in the
spec's taxonomy and are included so that their absence from the code's behavior
can be stated. -/
inductive RDFProofsError where
  | InvalidProofConfiguration
  | InvalidProofDatetime
  | InvalidVerificationMethodURL
  | InvalidVerificationMethod
  | MalformedProof
  | BBSPlusInvalidSignature
  | HashToField
  | InvalidVP
  | InvalidChallengeDatatype
  | MissingChallengeInRequest
  | MissingChallengeInVP
  | MismatchedChallenge
  | MissingDomainInVP
  | MissingDomainInRequest
  | MismatchedDomain
  | MessageSizeOverflow
  | MissingSecret
  | MissingSecretOrOpenerPubKey
  | MissingSecretOrDomain
  | MissingInputToDeriveProof
  | VCWithUnsupportedCryptosuite
  | DeAnonymization
  | DisclosedVCIsNotSubsetOfOriginalVC
  | DeriveProofValue
  | BlankNodeCollision
  | ProofVerify
  | KeyNotFound
  | DecodeFailure
  | VCWithoutVCType
deriving DecidableEq, Repr

open RDFProofsError

/-- Lift an `Option` into `Except`, as Rust's `ok_or` does. -/
def okOr (o : Option α) (e : RDFProofsError) : Except RDFProofsError α :=
  match o with
  | some a => .ok a
  | none => .error e

/- Graph lookup helpers matching the oxrdf accessors used by the source. -/

def triplesForPredicate (g : Graph) (p : String) : List Triple :=
  g.filter (fun t => decide (t.predicate = p))

def subjectForPredicateObject (g : Graph) (p : String) (o : RdfTerm) : Option RdfSubject :=
  (g.filter (fun t => decide (t.predicate = p ∧ t.object = o))).head?.map Triple.subject

def objectForSubjectPredicate (g : Graph) (s : RdfSubject) (p : String) : Option RdfTerm :=
  (g.filter (fun t => decide (t.subject = s ∧ t.predicate = p))).head?.map Triple.object

/- Canonicalization. `rdf_canon::issue_graph` / `relabel_graph` / `sort_graph`
belong to the external rdf-canon crate (out of scope per the spec); the
relabelling is modelled as the identity and the sort as a deterministic sort of
the triples by their N-Triples serialization. -/

/-- Computable lexicographic comparison of strings by character code (the
built-in String order is an opaque extern; the canonicalizer's exact order is
external anyway, so any fixed deterministic total order models it). -/
def strLe : List Char → List Char → Bool
  | [], _ => true
  | _ :: _, [] => false
  | a :: as, b :: bs =>
      if a.toNat < b.toNat then true
      else if b.toNat < a.toNat then false
      else strLe as bs

def ntLe (s t : String) : Bool := strLe s.toList t.toList

def insertSorted (t : Triple) : List Triple → List Triple
  | [] => [t]
  | u :: us => if ntLe t.toNt u.toNt then t :: u :: us else u :: insertSorted t us

def sortGraph : List Triple → List Triple
  | [] => []
  | t :: ts => insertSorted t (sortGraph ts)

/-- Embedding of `_canonicalize_into_terms` (signature.rs:110-118): canonicalize
(modelled: identity relabelling), sort, then flatten each triple into its
subject, predicate and object terms. -/
def canonicalizeIntoTerms (g : Graph) : List RdfTerm :=
  (sortGraph g).flatMap (fun t => [t.subject.toTerm, .namedNode t.predicate, t.object])

/-- Embedding of `transform` (signature.rs:65-70): canonicalize the unsecured
document; the proof options argument is ignored. -/
def transform (unsecured_document : Graph) (_proof_options : Graph) : List RdfTerm :=
  canonicalizeIntoTerms unsecured_document

/-- Model of the external hash-to-field primitive on a byte string. -/
def hash_to_field (s : String) : Fr := Fr.hashStr s

/-- Embedding of `_hash_terms_to_field` for a single term: the term's
`to_string` bytes are hashed to one field element. -/
def hash_term_to_field (t : RdfTerm) : Fr := hash_to_field t.toNt

/-- Delimiter scalar: the hash of the byte string DELIMITER
(constants.rs, quoted verbatim in the spec). -/
def get_delimiter : Fr := hash_to_field "DELIMITER"

/-- Embedding of `hash` (signature.rs:120-138): hash the transformed document
terms, push the delimiter, then append the hashed canonical proof-config terms.
The source's only error branch (`hash_to_field` returning no element) is
unreachable for the modelled total primitive, so the function is total here. -/
def sigHash (transformed_document : List RdfTerm) (canonical_proof_config : List RdfTerm) :
    List Fr :=
  (transformed_document.map hash_term_to_field) ++
    [get_delimiter] ++ (canonical_proof_config.map hash_term_to_field)

/-- Simplified model of the external `oxsdatatypes::DateTime::from_str` parser:
accepts the canonical `YYYY-MM-DDThh:mm:ssZ` lexical form (the only forms the
repository's own fixtures use). -/
def xsdDateTimeParses (s : String) : Bool :=
  match s.toList with
  | [y1, y2, y3, y4, '-', m1, m2, '-', d1, d2, 'T',
     h1, h2, ':', n1, n2, ':', s1, s2, 'Z'] =>
      [y1, y2, y3, y4, m1, m2, d1, d2, h1, h2, n1, n2, s1, s2].all Char.isDigit
  | _ => false

/-- Embedding of `configure_proof` (signature.rs:72-108): require a
`DataIntegrityProof`-typed subject with cryptosuite `bbs-termwise-signature-2023`
(else `InvalidProofConfiguration`) and a `created` literal that parses as
xsd:dateTime with the xsd:dateTime datatype (else `InvalidProofDatetime`); then
canonicalize the proof options into terms. -/
def configure_proof (proof_options : Graph) : Except RDFProofsError (List RdfTerm) := do
  let subj ← okOr (subjectForPredicateObject proof_options rdfTYPE DATA_INTEGRITY_PROOF)
      InvalidProofConfiguration
  let cryptosuite ← okOr (objectForSubjectPredicate proof_options subj CRYPTOSUITE)
      InvalidProofConfiguration
  match cryptosuite with
  | .literal v =>
      if v.valueStr = CRYPTOSUITE_SIGN then pure () else .error InvalidProofConfiguration
  | _ => .error InvalidProofConfiguration
  let created ← okOr (objectForSubjectPredicate proof_options subj CREATED)
      InvalidProofDatetime
  match created with
  | .literal v =>
      if xsdDateTimeParses v.valueStr = false ∨ ¬ v.datatype = some XSD_DATE_TIME then
        .error InvalidProofDatetime
      else pure ()
  | _ => .error InvalidProofDatetime
  pure (canonicalizeIntoTerms proof_options)

/- Key material. `key_graph.rs` / `loader.rs` are not under src/; per the spec a
key graph resolves a verification-method IRI to BBS+ keypair material. A public
key either is the public counterpart of a secret key (`ofSk`) or is unrelated
key material (`raw`). -/

inductive BBSPublicKey where
  | ofSk (sk : String) : BBSPublicKey
  | raw (tag : String) : BBSPublicKey
deriving DecidableEq, Repr

structure KeyEntry where
  vm : String
  sk : String
  pk : BBSPublicKey
deriving DecidableEq, Repr

abbrev KeyGraph := List KeyEntry

def KeyGraph.findEntry (kg : KeyGraph) (vm : String) : Option KeyEntry :=
  kg.find? (fun e => decide (e.vm = vm))

/-- Modelled from the spec: key resolution (`get_keypair`, key_graph.rs missing
from src/) maps a verification-method IRI to `(sk, pk)` or fails. -/
def KeyGraph.get_keypair (kg : KeyGraph) (vm : String) :
    Except RDFProofsError (String × BBSPublicKey) :=
  match kg.findEntry vm with
  | some e => .ok (e.sk, e.pk)
  | none => .error KeyNotFound

/-- Modelled from the spec: public-key resolution (`get_public_key`,
key_graph.rs missing from src/). -/
def KeyGraph.get_public_key (kg : KeyGraph) (vm : String) :
    Except RDFProofsError BBSPublicKey :=
  match kg.findEntry vm with
  | some e => .ok e.pk
  | none => .error KeyNotFound

/-- Embedding of `_get_verification_method_identifier` (signature.rs:207-220). -/
def get_verification_method_identifier (proof_options : Graph) :
    Except RDFProofsError String := do
  let subj ← okOr (subjectForPredicateObject proof_options rdfTYPE DATA_INTEGRITY_PROOF)
      InvalidProofConfiguration
  let vm ← okOr (objectForSubjectPredicate proof_options subj VERIFICATION_METHOD)
      InvalidProofConfiguration
  match vm with
  | .namedNode v => .ok v
  | _ => .error InvalidVerificationMethodURL

/-- Model of `generate_params` (key_gen.rs, missing from src/): the spec fixes
that `params(n)` is a deterministic function of the message count `n` only, so
the parameter set is represented by `n` itself. -/
def generate_params (n : Nat) : Nat := n

/-- Embedding of `serialize_proof` (signature.rs:155-175): resolve the signing
key from the verification method, generate `params(message_count)` and produce
the BBS+ signature over the hashed messages (the primitive and its multibase
serialization modelled as the signature record). -/
def serialize_proof (hash_data : List Fr) (proof_options : Graph) (kg : KeyGraph) :
    Except RDFProofsError BBSSig := do
  let message_count := hash_data.length
  let vm ← get_verification_method_identifier proof_options
  let (secret_key, _public_key) ← kg.get_keypair vm
  let params := generate_params message_count
  .ok (BBSSig.mk hash_data secret_key params)

/-- Credential: a document graph paired with a proof graph (vc.rs:10-20). -/
structure VerifiableCredential where
  document : Graph
  proof : Graph
deriving DecidableEq, Repr

/-- Embedding of `add_proof_value` (signature.rs:177-191): insert a
`proofValue` triple with the encoded signature as a simple literal. -/
def add_proof_value (vc : VerifiableCredential) (proof_value : BBSSig) :
    Except RDFProofsError VerifiableCredential := do
  let subj ← okOr (subjectForPredicateObject vc.proof rdfTYPE DATA_INTEGRITY_PROOF)
      InvalidProofConfiguration
  .ok ⟨vc.document, vc.proof ++ [⟨subj, PROOF_VALUE, .literal ⟨.sigVal proof_value, none, none⟩⟩]⟩

/-- Embedding of `sign` (signature.rs:25-37). The caller's RNG only enters the
BBS+ primitive, whose acceptance is randomness-independent, so it is dropped in
the model. -/
def sign (unsecured_credential : VerifiableCredential) (kg : KeyGraph) :
    Except RDFProofsError VerifiableCredential := do
  let transformed_data := transform unsecured_credential.document unsecured_credential.proof
  let canonical_proof_config ← configure_proof unsecured_credential.proof
  let hash_data := sigHash transformed_data canonical_proof_config
  let proof_value ← serialize_proof hash_data unsecured_credential.proof kg
  add_proof_value unsecured_credential proof_value

/-- Embedding of `verify_base_proof` (signature.rs:193-205): the BBS+ primitive
`SignatureG1::verify` accepts exactly when the signature was produced over the
same message vector, under the same parameter set, by the secret key matching
the resolved public key. -/
def verify_base_proof (hash_data : List Fr) (proof_value : BBSSig)
    (proof_config : Graph) (kg : KeyGraph) : Except RDFProofsError Unit := do
  let vm ← get_verification_method_identifier proof_config
  let pk ← kg.get_public_key vm
  let params := generate_params hash_data.length
  if proof_value.msgs = hash_data ∧ proof_value.paramsN = params ∧
      pk = BBSPublicKey.ofSk proof_value.sk then
    .ok ()
  else
    .error BBSPlusInvalidSignature

/-- Embedding of `verify` (signature.rs:39-63): extract the first `proofValue`
literal, strip all `proofValue` triples to recover the proof config, recompute
the hash data and verify the base proof. -/
def verify (secured_credential : VerifiableCredential) (kg : KeyGraph) :
    Except RDFProofsError Unit := do
  let pvTriple ← okOr (triplesForPredicate secured_credential.proof PROOF_VALUE).head?
      MalformedProof
  let proof_value ← match pvTriple.object with
    | .literal v =>
        match v.lexical with
        | .sigVal sg => Except.ok sg
        | .str _ => Except.error DecodeFailure
    | _ => Except.error MalformedProof
  let proof_config := secured_credential.proof.filter
      (fun t => decide (¬ t.predicate = PROOF_VALUE))
  let transformed_data := transform secured_credential.document secured_credential.proof
  let canonical_proof_config ← configure_proof proof_config
  let hash_data := sigHash transformed_data canonical_proof_config
  verify_base_proof hash_data proof_value proof_config kg

/- ------------------------------------------------------------------ -/
/- verify_proof.rs                                                     -/
/- ------------------------------------------------------------------ -/

/-- Model of `oxrdf::NamedOrBlankNode`. -/
inductive NamedOrBlankNode where
  | named (iri : String) : NamedOrBlankNode
  | blank (id : String) : NamedOrBlankNode
deriving DecidableEq, Repr

/-- Serialization used as the ordering key of `OrderedNamedOrBlankNode`
(ordered_triple.rs is not under src/; modelled from the spec as the canonical
N-Triples form, which is what BTreeMap ordering needs to be deterministic). -/
def NamedOrBlankNode.key : NamedOrBlankNode → String
  | .named i => "<" ++ i ++ ">"
  | .blank b => "_:" ++ b

/-- Character-list prefix test (String.isPrefixOf is an opaque extern; this
keeps the model computable by reduction). -/
def strHasPrefix : List Char → List Char → Bool
  | [], _ => true
  | _ :: _, [] => false
  | p :: ps, c :: cs => if p = c then strHasPrefix ps cs else false

/-- Modelled from the spec: `is_nym` (common.rs is not under src/) tests whether
a named node is a pseudonymous placeholder IRI, i.e. carries the fixed nym URN
prefix used for hidden-but-equal named nodes. -/
def is_nym (iri : String) : Bool := strHasPrefix "urn:nym:".toList iri.toList

/-- Association list model of `HashMap<NamedOrBlankNode, Vec<(usize, usize)>>`:
`entry(k).or_default().push(pos)`. -/
abbrev EquivMap := List (NamedOrBlankNode × List (Nat × Nat))

def pushEquiv : EquivMap → NamedOrBlankNode → (Nat × Nat) → EquivMap
  | [], k, pos => [(k, [pos])]
  | (k', v) :: rest, k, pos =>
      if k' = k then (k', v ++ [pos]) :: rest else (k', v) :: pushEquiv rest k pos

/-- Association list model of `BTreeMap<usize, Fr>`; the code only ever inserts
fresh keys, so insertion is modelled as append. -/
abbrev FrMap := List (Nat × Fr)

def FrMap.insert (m : FrMap) (k : Nat) (v : Fr) : FrMap := m ++ [(k, v)]

def FrMap.keys (m : FrMap) : List Nat := m.map Prod.fst

/-- Partial state threaded through `build_disclosed_terms`
(verify_proof.rs:261-335). -/
structure DTState where
  disclosed : FrMap
  equivs : EquivMap
deriving Repr

/-- Embedding of `build_disclosed_terms` (verify_proof.rs:261-335): revealed
named nodes and literals are hashed into the disclosed map at their positions;
blank nodes and nym IRIs are recorded in the equivalence table instead. -/
def build_disclosed_terms (disclosed_triple : Option Triple)
    (subject_index vc_index : Nat) (st : DTState) : DTState :=
  let predicate_index := subject_index + 1
  let object_index := subject_index + 2
  match disclosed_triple with
  | none => st
  | some triple =>
    let st :=
      match triple.subject with
      | .blankNode b =>
          { st with equivs := pushEquiv st.equivs (.blank b) (vc_index, subject_index) }
      | .namedNode n =>
          if is_nym n then
            { st with equivs := pushEquiv st.equivs (.named n) (vc_index, subject_index) }
          else
            { st with disclosed :=
                st.disclosed.insert subject_index (hash_term_to_field (.namedNode n)) }
    let st :=
      if is_nym triple.predicate then
        { st with equivs :=
            pushEquiv st.equivs (.named triple.predicate) (vc_index, predicate_index) }
      else
        { st with disclosed :=
            st.disclosed.insert predicate_index (hash_term_to_field (.namedNode triple.predicate)) }
    match triple.object with
    | .blankNode b =>
        { st with equivs := pushEquiv st.equivs (.blank b) (vc_index, object_index) }
    | .namedNode n =>
        if is_nym n then
          { st with equivs := pushEquiv st.equivs (.named n) (vc_index, object_index) }
        else
          { st with disclosed :=
              st.disclosed.insert object_index (hash_term_to_field (.namedNode n)) }
    | .literal v =>
        { st with disclosed :=
            st.disclosed.insert object_index (hash_term_to_field (.literal v)) }

/-- Result of `get_disclosed_terms` (verify_proof.rs:209-259). -/
structure DisclosedTerms where
  disclosed : FrMap
  equivs : EquivMap
  term_count : Nat
deriving Repr

/-- Disclosed credential as index-keyed optional triples
(`DisclosedVerifiableCredential`, vc.rs:117-121), as association lists. -/
structure DisclosedVC where
  document : List (Nat × Option Triple)
  proof : List (Nat × Option Triple)
deriving Repr

def foldDocTriples (vc_index : Nat) : List (Nat × Option Triple) → DTState → DTState
  | [], st => st
  | (j, dt) :: rest, st =>
      foldDocTriples vc_index rest (build_disclosed_terms dt (3 * j) vc_index st)

def foldProofTriples (vc_index proof_index : Nat) :
    List (Nat × Option Triple) → DTState → DTState
  | [], st => st
  | (j, dt) :: rest, st =>
      foldProofTriples vc_index proof_index rest
        (build_disclosed_terms dt (3 * j + proof_index) vc_index st)

/-- Embedding of `get_disclosed_terms` (verify_proof.rs:216-259): document terms
at indices `3j..3j+2`, the delimiter at `3·|doc|`, proof terms shifted past it;
`term_count = 3·(|doc| + |proof|) + 1`. -/
def get_disclosed_terms (disclosed_vc_triples : DisclosedVC) (vc_index : Nat) :
    DisclosedTerms :=
  let st := foldDocTriples vc_index disclosed_vc_triples.document ⟨[], []⟩
  let delimiter_index := disclosed_vc_triples.document.length * 3
  let proof_index := delimiter_index + 1
  let st := { st with disclosed := st.disclosed.insert delimiter_index get_delimiter }
  let st := foldProofTriples vc_index proof_index disclosed_vc_triples.proof st
  { disclosed := st.disclosed
    equivs := st.equivs
    term_count := (disclosed_vc_triples.document.length + disclosed_vc_triples.proof.length) * 3 + 1 }

/-- Embedding of the nonce extraction closure `get_nonce` (verify_proof.rs:64-75):
the first `challenge` triple's literal value, `InvalidChallengeDatatype` on a
non-literal object, `none` when no challenge triple exists. -/
def get_nonce_in_vp (vp_proof : Graph) : Except RDFProofsError (Option String) :=
  match (triplesForPredicate vp_proof CHALLENGE).head? with
  | some t =>
      match t.object with
      | .literal v => .ok (some v.valueStr)
      | _ => .error InvalidChallengeDatatype
  | none => .ok none

/-- Embedding of the nonce coherence match (verify_proof.rs:76-87). -/
def nonce_check (nonce : Option String) (vp_proof : Graph) :
    Except RDFProofsError Unit := do
  let nonce_in_vp ← get_nonce_in_vp vp_proof
  match nonce, nonce_in_vp with
  | none, none => .ok ()
  | none, some _ => .error MissingChallengeInRequest
  | some _, none => .error MissingChallengeInVP
  | some given, some in_vp =>
      if given = in_vp then .ok () else .error MismatchedChallenge

/-- Embedding of the pre-cryptographic head of `verify_proof`
(verify_proof.rs:44-87) on the VP proof graph: extract the `proofValue` literal
(else `InvalidVP`), then run the challenge coherence check. No other check is
performed before canonicalization and cryptographic verification; in particular
the function never reads a `domain` triple and takes no domain argument. -/
def verify_proof_coherence (nonce : Option String) (vp_proof : Graph) :
    Except RDFProofsError Unit := do
  let pvTriple ← okOr (triplesForPredicate vp_proof PROOF_VALUE).head? InvalidVP
  let _pv ← match pvTriple.object with
    | .literal v => Except.ok v.valueStr
    | _ => Except.error InvalidVP
  nonce_check nonce vp_proof

/-- Merge of per-credential partial equivalence tables into the ordered map
(verify_proof.rs:151-164 and derive_proof.rs:1039-1052 are the same
algorithm): extend the entry of each key with the partial position vector, in
input order; the `BTreeMap` iteration order is the key order. -/
def extendEquiv : EquivMap → NamedOrBlankNode → List (Nat × Nat) → EquivMap
  | [], k, v => [(k, v)]
  | (k', v') :: rest, k, v =>
      if k' = k then (k', v' ++ v) :: rest else (k', v') :: extendEquiv rest k v

def insertByKey (e : NamedOrBlankNode × List (Nat × Nat)) :
    EquivMap → EquivMap
  | [] => [e]
  | f :: fs => if e.1.key ≤ f.1.key then e :: f :: fs else f :: insertByKey e fs

def sortEquivs : EquivMap → EquivMap
  | [] => []
  | e :: es => insertByKey e (sortEquivs es)

def mergeEquivs (parts : List EquivMap) : EquivMap :=
  sortEquivs (parts.foldl (fun acc part =>
    part.foldl (fun a kv => extendEquiv a kv.1 kv.2) acc) [])

/-- Lexicographic order on `(statement index, message index)` pairs, the
`BTreeSet<(usize, usize)>` element order. -/
def posLe (a b : Nat × Nat) : Bool :=
  decide (a.1 < b.1 ∨ (a.1 = b.1 ∧ a.2 ≤ b.2))

/-- Sorted-deduplicating insertion: the `BTreeSet` model. -/
def insertPos (x : Nat × Nat) : List (Nat × Nat) → List (Nat × Nat)
  | [] => [x]
  | y :: ys => if x = y then y :: ys else if posLe x y then x :: y :: ys else y :: insertPos x ys

/-- Model of `Vec<(usize, usize)>::into_iter().collect::<BTreeSet<_>>()`. -/
def toPosSet (v : List (Nat × Nat)) : List (Nat × Nat) :=
  v.foldr insertPos []

/-- Embedding of `Iterator::position` over a predicate's private-variable list
(derive_proof.rs:1168-1171): index of the first binding whose blank node equals
the canonical identifier. -/
def positionOfPrivate : List (String × NamedOrBlankNode) → NamedOrBlankNode → Option Nat
  | [], _ => none
  | (_, b) :: rest, id =>
      if b = id then some 0 else (positionOfPrivate rest id).map (· + 1)

/-- Embedding of the term-equality meta-statement construction of
`derive_proof_value` (derive_proof.rs:1159-1179): one `EqualWitnesses` set per
merged-equivs entry, first augmented with `(predicate_index, position)` for
every predicate whose private-variable list references the identifier
(derive_proof.rs:1165-1174), emitted when the resulting set has more than one
element. -/
def derive_meta_statements (predicate_privates : List (List (String × NamedOrBlankNode)))
    (predicate_indexes : List Nat) (equivs : EquivMap) : List (List (Nat × Nat)) :=
  equivs.filterMap (fun kv =>
    let equiv_set :=
      (predicate_privates.zip predicate_indexes).foldl
        (fun acc pp =>
          match positionOfPrivate pp.1 kv.1 with
          | some idx_in_predicate => insertPos (pp.2, idx_in_predicate) acc
          | none => acc)
        (toPosSet kv.2)
    if 1 < equiv_set.length then some equiv_set else none)

/-- Embedding of the term-equality meta-statement construction of
`verify_proof` (verify_proof.rs:165-186): entries whose position vector has more
than one element are kept, then each is turned into an `EqualWitnesses` set. -/
def verify_meta_statements (equivs : EquivMap) : List (List (Nat × Nat)) :=
  (equivs.filter (fun kv => decide (1 < kv.2.length))).map (fun kv => toPosSet kv.2)

/-- Uniform message-index shift relating two ways of counting a credential's
term positions: `derive_proof` counts the slot-0 holder secret
(derive_proof.rs:1311-1317, document terms from index 1), while `verify_proof`
does not (verify_proof.rs:229, document terms from index 0), so every position
the derive side records is the verify-side position with the message index
raised by one. -/
def shiftPos (p : Nat × Nat) : Nat × Nat := (p.1, p.2 + 1)

def shiftEquivs (e : EquivMap) : EquivMap :=
  e.map (fun kv => (kv.1, kv.2.map shiftPos))

/- ------------------------------------------------------------------ -/
/- derive_proof.rs: deanonymization and index map                      -/
/- ------------------------------------------------------------------ -/

/-- The user-supplied deanonymization map
(`HashMap<NamedOrBlankNode, Term>`), as an association list with first-match
lookup. -/
abbrev DeanonMap := List (NamedOrBlankNode × RdfTerm)

def DeanonMap.get (m : DeanonMap) (k : NamedOrBlankNode) : Option RdfTerm :=
  (m.find? (fun kv => decide (kv.1 = k))).map Prod.snd

/-- Embedding of `deanonymize_subject` (derive_proof.rs:451-478): a mapped
subject must resolve to a named or blank node; a literal is a role error. -/
def deanonymize_subject (m : DeanonMap) (s : RdfSubject) :
    Except RDFProofsError RdfSubject :=
  match s with
  | .blankNode b =>
      match m.get (.blank b) with
      | some (.namedNode n) => .ok (.namedNode n)
      | some (.blankNode n) => .ok (.blankNode n)
      | some (.literal _) => .error DeAnonymization
      | none => .ok s
  | .namedNode node =>
      match m.get (.named node) with
      | some (.namedNode n) => .ok (.namedNode n)
      | some (.blankNode n) => .ok (.blankNode n)
      | some (.literal _) => .error DeAnonymization
      | none => .ok s

/-- Embedding of `deanonymize_named_node` (derive_proof.rs:480-491): a mapped
predicate must resolve to a named node. -/
def deanonymize_named_node (m : DeanonMap) (p : String) :
    Except RDFProofsError String :=
  match m.get (.named p) with
  | some (.namedNode n) => .ok n
  | some _ => .error DeAnonymization
  | none => .ok p

/-- Embedding of `deanonymize_term` (derive_proof.rs:493-517): a mapped blank
node in object position may resolve to any term (including a literal: hidden
literals); a mapped named node must stay a named or blank node. -/
def deanonymize_term (m : DeanonMap) (t : RdfTerm) : Except RDFProofsError RdfTerm :=
  match t with
  | .blankNode b =>
      match m.get (.blank b) with
      | some v => .ok v
      | none => .ok t
  | .namedNode node =>
      match m.get (.named node) with
      | some (.namedNode n) => .ok (.namedNode n)
      | some (.blankNode n) => .ok (.blankNode n)
      | some (.literal _) => .error DeAnonymization
      | none => .ok t
  | .literal _ => .ok t

def deanonymize_triple (m : DeanonMap) (t : Triple) : Except RDFProofsError Triple := do
  let s ← deanonymize_subject m t.subject
  let p ← deanonymize_named_node m t.predicate
  let o ← deanonymize_term m t.object
  .ok ⟨s, p, o⟩

/-- Credential as document/proof triple vectors
(`VerifiableCredentialTriples`, vc.rs:48-58). -/
structure VCTriples where
  document : List Triple
  proof : List Triple
deriving DecidableEq, Repr

/-- Per-credential revealed-position map (`StatementIndexMap`, common.rs;
its shape is fixed by the spec's wire encoding of the composite proof value). -/
structure StatementIndexMap where
  document_map : List Nat
  document_len : Nat
  proof_map : List Nat
  proof_len : Nat
deriving DecidableEq, Repr

def deanonymize_triples (m : DeanonMap) :
    List Triple → Except RDFProofsError (List Triple)
  | [] => .ok []
  | t :: ts => do
      let t' ← deanonymize_triple m t
      let ts' ← deanonymize_triples m ts
      .ok (t' :: ts')

/-- The deanonymization pass of `gen_index_map` (derive_proof.rs:889-900),
applied to every disclosed credential in order. -/
def deanonymize_vc_vec (m : DeanonMap) :
    List VCTriples → Except RDFProofsError (List VCTriples)
  | [] => .ok []
  | vc :: rest => do
      let doc ← deanonymize_triples m vc.document
      let prf ← deanonymize_triples m vc.proof
      let rest' ← deanonymize_vc_vec m rest
      .ok (⟨doc, prf⟩ :: rest')

/-- Embedding of `Iterator::position`: the index of the first occurrence. -/
def positionOf (original : List Triple) (d : Triple) : Option Nat :=
  match original with
  | [] => none
  | o :: os => if d = o then some 0 else (positionOf os d).map (· + 1)

/-- The position search of `gen_index_map` (derive_proof.rs:936-953): each
disclosed triple's index in the original list, or
`DisclosedVCIsNotSubsetOfOriginalVC`. -/
def positionsIn (original : List Triple) :
    List Triple → Except RDFProofsError (List Nat)
  | [] => .ok []
  | d :: ds => do
      let i ← okOr (positionOf original d) DisclosedVCIsNotSubsetOfOriginalVC
      let is ← positionsIn original ds
      .ok (i :: is)

def pairIndexMap (disclosed original : VCTriples) :
    Except RDFProofsError StatementIndexMap := do
  let document_map ← positionsIn original.document disclosed.document
  let proof_map ← positionsIn original.proof disclosed.proof
  .ok ⟨document_map, original.document.length, proof_map, original.proof.length⟩

def pairIndexMaps : List (VCTriples × VCTriples) →
    Except RDFProofsError (List StatementIndexMap)
  | [] => .ok []
  | (d, o) :: rest => do
      let m ← pairIndexMap d o
      let ms ← pairIndexMaps rest
      .ok (m :: ms)

/-- Embedding of `gen_index_map` (derive_proof.rs:881-967): deanonymize the
disclosed credentials, then map every disclosed triple to its position in the
corresponding original credential. -/
def gen_index_map (original_vc_vec disclosed_vc_vec : List VCTriples)
    (extended_deanon_map : DeanonMap) :
    Except RDFProofsError (List StatementIndexMap) := do
  let disclosed' ← deanonymize_vc_vec extended_deanon_map disclosed_vc_vec
  pairIndexMaps (disclosed'.zip original_vc_vec)

/- ------------------------------------------------------------------ -/
/- derive_proof.rs: disclosed and undisclosed terms                    -/
/- ------------------------------------------------------------------ -/

/-- Embedding of `hash_byte_to_field` (common.rs is not under src/, but the
spec fixes it: the holder secret's scalar encoding is the hash of its bytes
through the same hash-to-field primitive). Secrets are byte strings, modelled
as `String`. -/
def hash_byte_to_field (secret : String) : Fr := hash_to_field secret

/-- State threaded through `build_disclosed_and_undisclosed_terms`
(derive_proof.rs:1366-1447). -/
structure DUState where
  disclosed : FrMap
  undisclosed : FrMap
  equivs : EquivMap
deriving Repr

/-- Embedding of `build_disclosed_and_undisclosed_terms`
(derive_proof.rs:1366-1447): the hashes are always those of the original
triple's terms; a revealed term goes into the disclosed map, a hidden one
(blank node, nym IRI, or a wholly undisclosed triple) into the undisclosed map,
with hidden positions also recorded in the equivalence table. -/
def build_disclosed_and_undisclosed_terms (disclosed_triple : Option Triple)
    (subject_index vc_index : Nat) (original : Triple) (st : DUState) : DUState :=
  let predicate_index := subject_index + 1
  let object_index := subject_index + 2
  let subject_fr := hash_term_to_field original.subject.toTerm
  let predicate_fr := hash_term_to_field (.namedNode original.predicate)
  let object_fr := hash_term_to_field original.object
  match disclosed_triple with
  | none =>
      { st with undisclosed :=
          ((st.undisclosed.insert subject_index subject_fr).insert
            predicate_index predicate_fr).insert object_index object_fr }
  | some triple =>
    let st :=
      match triple.subject with
      | .blankNode b =>
          { st with undisclosed := st.undisclosed.insert subject_index subject_fr
                    equivs := pushEquiv st.equivs (.blank b) (vc_index, subject_index) }
      | .namedNode n =>
          if is_nym n then
            { st with undisclosed := st.undisclosed.insert subject_index subject_fr
                      equivs := pushEquiv st.equivs (.named n) (vc_index, subject_index) }
          else
            { st with disclosed := st.disclosed.insert subject_index subject_fr }
    let st :=
      if is_nym triple.predicate then
        { st with undisclosed := st.undisclosed.insert predicate_index predicate_fr
                  equivs :=
                    pushEquiv st.equivs (.named triple.predicate) (vc_index, predicate_index) }
      else
        { st with disclosed := st.disclosed.insert predicate_index predicate_fr }
    match triple.object with
    | .blankNode b =>
        { st with undisclosed := st.undisclosed.insert object_index object_fr
                  equivs := pushEquiv st.equivs (.blank b) (vc_index, object_index) }
    | .namedNode n =>
        if is_nym n then
          { st with undisclosed := st.undisclosed.insert object_index object_fr
                    equivs := pushEquiv st.equivs (.named n) (vc_index, object_index) }
        else
          { st with disclosed := st.disclosed.insert object_index object_fr }
    | .literal _ =>
        { st with disclosed := st.disclosed.insert object_index object_fr }

/-- Result of `get_disclosed_and_undisclosed_terms` (derive_proof.rs:1283-1289). -/
structure DUTerms where
  disclosed : FrMap
  undisclosed : FrMap
  equivs : EquivMap
  term_count : Nat
deriving Repr

/-- One loop of `get_disclosed_and_undisclosed_terms` over index-keyed optional
disclosed triples (derive_proof.rs:1319-1335 and 1341-1357): fetch the original
triple at the stored index (else `DeriveProofValue`), process it, advance the
running term index by 3. -/
def processDUTriples (original : List Triple) (vc_index : Nat) :
    List (Nat × Option Triple) → Nat → DUState →
    Except RDFProofsError (DUState × Nat)
  | [], idx, st => .ok (st, idx)
  | (j, dt) :: rest, idx, st => do
      let orig ← okOr (original.get? j) DeriveProofValue
      processDUTriples original vc_index rest (idx + 3)
        (build_disclosed_and_undisclosed_terms dt idx vc_index orig st)

/-- Embedding of `get_disclosed_and_undisclosed_terms`
(derive_proof.rs:1291-1364): slot 0 carries `Hash(secret)` (undisclosed) for a
bound credential or the scalar 1 (disclosed) for an unbound one; document terms
follow from index 1, then the delimiter, then the proof terms; `term_count` is
the final running index. -/
def get_disclosed_and_undisclosed_terms (disclosed_vc_triples : DisclosedVC)
    (original_vc_triples : VCTriples) (vc_index : Nat) (secret : Option String) :
    Except RDFProofsError DUTerms := do
  let st0 : DUState :=
    match secret with
    | some s => ⟨[], FrMap.insert [] 0 (hash_byte_to_field s), []⟩
    | none => ⟨FrMap.insert [] 0 (Fr.fromNat 1), [], []⟩
  let (st1, idx1) ← processDUTriples original_vc_triples.document vc_index
      disclosed_vc_triples.document 1 st0
  let st2 := { st1 with disclosed := st1.disclosed.insert idx1 get_delimiter }
  let (st3, idx3) ← processDUTriples original_vc_triples.proof vc_index
      disclosed_vc_triples.proof (idx1 + 1) st2
  .ok ⟨st3.disclosed, st3.undisclosed, st3.equivs, idx3⟩

/- ------------------------------------------------------------------ -/
/- blind_signature.rs                                                  -/
/- ------------------------------------------------------------------ -/

/-- Context byte string of the blind-sign request PoK
(`BLIND_SIG_REQUEST_CONTEXT`, constants.rs; the constant's identity is all the
code compares). -/
def BLIND_SIG_REQUEST_CONTEXT : String := "BLIND_SIG_REQUEST_CONTEXT"

/-- Model of the Pedersen commitment `h_0^blinding · h[0]^msg` under
`params(1)`: the G1 point is represented freely by its opening. -/
structure CommitmentG1 where
  blinding : Fr
  msg : Fr
deriving DecidableEq, Repr

/-- Model of the `proof_system` composite NIZK attached to a blind-sign
request: a proof of knowledge of an opening of the commitment, bound to a
context and an optional nonce. -/
structure BlindPoK where
  commitment : CommitmentG1
  context : String
  nonce : Option String
deriving DecidableEq, Repr

/-- `BlindSigRequest` (blind_signature.rs:28-42). -/
structure BlindSigRequest where
  commitment : CommitmentG1
  proof : BlindPoK
deriving DecidableEq, Repr

/-- `BlindSigRequestWithBlinding` (blind_signature.rs:44-48). -/
structure BlindSigRequestWithBlinding where
  request : BlindSigRequest
  blinding : Fr
deriving DecidableEq, Repr

/-- Embedding of `blind_sig_request` (blind_signature.rs:50-98); the sampled
blinding is the explicit randomness argument. -/
def blind_sig_request (blinding : Fr) (secret : String) (nonce : Option String) :
    BlindSigRequestWithBlinding :=
  let secret_int := hash_byte_to_field secret
  let commitment : CommitmentG1 := ⟨blinding, secret_int⟩
  ⟨⟨commitment, ⟨commitment, BLIND_SIG_REQUEST_CONTEXT, nonce⟩⟩, blinding⟩

/-- Embedding of `verify_blind_sig_request` (blind_signature.rs:166-193): the
external `proof_system` verifier accepts exactly when the PoK opens the given
commitment under the fixed context and the supplied nonce. -/
def verify_blind_sig_request (commitment : CommitmentG1) (proof : BlindPoK)
    (nonce : Option String) : Except RDFProofsError Unit :=
  if proof.commitment = commitment ∧ proof.context = BLIND_SIG_REQUEST_CONTEXT ∧
      proof.nonce = nonce then
    .ok ()
  else
    .error ProofVerify

/-- Record of `BBSPlusSignature::new_with_committed_messages`
(blind_signature.rs:220-226): the blinded signature is determined by the
commitment (the slot-0 committed message), the uncommitted message assignment,
the signing key and the parameter count. -/
structure BlindedSig where
  committed : CommitmentG1
  uncommitted : List (Nat × Fr)
  sk : String
  paramsN : Nat
deriving DecidableEq, Repr

/-- Embedding of `serialize_proof_with_comitted_messages`
(blind_signature.rs:195-233): overflow-check the message count, shift every
encoded scalar to slot `i + 1`, resolve the signing key, and sign under
`params(message_count + 1)` with the commitment as the single committed
message. -/
def serialize_proof_with_comitted_messages (commitment : CommitmentG1)
    (hash_data : List Fr) (proof_options : Graph) (kg : KeyGraph) :
    Except RDFProofsError BlindedSig := do
  if hash_data.length < 2 ^ 32 then pure () else .error MessageSizeOverflow
  let message_count := hash_data.length + 1
  let uncommitted_messages := hash_data.enum.map (fun p => (p.1 + 1, p.2))
  let vm ← get_verification_method_identifier proof_options
  let (secret_key, _public_key) ← kg.get_keypair vm
  let params := generate_params message_count
  .ok ⟨commitment, uncommitted_messages, secret_key, params⟩

/-- Embedding of `blind_sign_core` (blind_signature.rs:142-164): verify the
request PoK, recompute the encoded message vector exactly as `sign` does
(through the same `configure_proof`, which admits only cryptosuite
`bbs-termwise-signature-2023`), and produce the blinded signature. -/
def blind_sign_core (request : BlindSigRequest) (nonce : Option String)
    (unsecured_credential : VerifiableCredential) (kg : KeyGraph) :
    Except RDFProofsError BlindedSig := do
  verify_blind_sig_request request.commitment request.proof nonce
  let transformed_data := transform unsecured_credential.document unsecured_credential.proof
  let canonical_proof_config ← configure_proof unsecured_credential.proof
  let hash_data := sigHash transformed_data canonical_proof_config
  serialize_proof_with_comitted_messages request.commitment hash_data
    unsecured_credential.proof kg

/- ------------------------------------------------------------------ -/
/- derive_proof.rs: head of derive_proof and the unwrap panic site     -/
/- ------------------------------------------------------------------ -/

/-- Outcome of running a Rust function that may return, error, or panic. -/
inductive PanicOr (α : Type) where
  | ok (a : α) : PanicOr α
  | raised (e : RDFProofsError) : PanicOr α
  | panicked : PanicOr α
deriving Repr

/-- Model of `Result::unwrap()`: an `Err` value panics. -/
def unwrapResult : Except RDFProofsError α → PanicOr α
  | .ok a => .ok a
  | .error _ => .panicked

def PanicOr.andThen : PanicOr α → (α → PanicOr β) → PanicOr β
  | .ok a, f => f a
  | .raised e, _ => .raised e
  | .panicked, _ => .panicked

def exceptStep : Except RDFProofsError α → (α → PanicOr β) → PanicOr β
  | .ok a, f => f a
  | .error e, _ => .raised e

/-- PPID record produced by `generate_ppid` (key_gen.rs is not under src/;
modelled from the spec: a deterministic G1 element bound to the domain and
`Hash(secret)`). -/
structure PPID where
  domain : String
  secretHash : Fr
deriving DecidableEq, Repr

/-- Embedding of `get_ppid` (derive_proof.rs:382-401). -/
def get_ppid (domain : Option String) (secret : Option String)
    (with_nym : Option Bool) : Except RDFProofsError (Option PPID) :=
  let with_nym' := match with_nym with | some v => v | none => false
  if with_nym' = false then .ok none
  else
    match domain, secret with
    | some d, some s => .ok (some ⟨d, hash_byte_to_field s⟩)
    | _, _ => .error MissingSecretOrDomain

/-- Verifiable ElGamal encryption of the holder secret
(`ElGamalVerifiableEncryption`); the external encryption module is modelled by
the data binding it: the opener public key and the encrypted scalar. -/
structure ElGamalVE where
  opener : String
  plaintext : Fr
deriving DecidableEq, Repr

/-- Embedding of `get_encrypted_secret_and_pok` (derive_proof.rs:403-417),
with the external encryption primitive modelled as total. -/
def get_encrypted_secret_and_pok (opener_pub_key : String) (secret : String) :
    ElGamalVE :=
  ⟨opener_pub_key, hash_byte_to_field secret⟩

/-- Embedding of the verifiable-encryption step of `derive_proof`
(derive_proof.rs:147-154), verbatim: the `(None, Some(_))` arm produces
`Err(MissingSecretOrOpenerPubKey)` — and the subsequent `.unwrap()` turns that
error into a panic instead of returning it. -/
def encrypt_secret_step (secret : Option String) (opener_pub_key : Option String) :
    PanicOr (Option ElGamalVE) :=
  unwrapResult
    (match secret, opener_pub_key with
     | some s, some pk => Except.ok (some (get_encrypted_secret_and_pok pk s))
     | some _, none => Except.ok none
     | none, none => Except.ok none
     | none, some _ => Except.error MissingSecretOrOpenerPubKey)

/-- Head of `derive_proof` (derive_proof.rs:66-158) up to and including the
verifiable-encryption step. `vc_checks` lists the outcome of the
per-credential verification step (derive_proof.rs:88-98) for each supplied VC
pair — the empty list when `vc_pairs` is empty, in which case that loop is
vacuous. A returned `.ok ()` means control reaches the rest of the function. -/
def derive_proof_head (vc_checks : List (Except RDFProofsError Unit))
    (blind_sign_request : Option BlindSigRequest) (with_ppid : Option Bool)
    (domain : Option String) (secret : Option String)
    (opener_pub_key : Option String) : PanicOr Unit :=
  if vc_checks.isEmpty ∧ blind_sign_request.isNone then
    .raised MissingInputToDeriveProof
  else
    let verifyAll : Except RDFProofsError Unit :=
      vc_checks.foldr (fun r acc => do let _ ← r; acc) (.ok ())
    exceptStep verifyAll (fun _ =>
      exceptStep (get_ppid domain secret with_ppid) (fun _ppid =>
        (encrypt_secret_step secret opener_pub_key).andThen (fun _ve => .ok ())))

/- ------------------------------------------------------------------ -/
/- Concrete fixtures (drawn from the repository's own test inputs)     -/
/- ------------------------------------------------------------------ -/

def docEx : Graph :=
  [⟨.namedNode "did:example:john", "http://schema.org/name",
    .literal ⟨.str "John Smith", none, none⟩⟩]

def proofCfgEx : Graph :=
  [⟨.blankNode "b0", rdfTYPE, DATA_INTEGRITY_PROOF⟩,
   ⟨.blankNode "b0", CRYPTOSUITE, .literal ⟨.str CRYPTOSUITE_SIGN, none, none⟩⟩,
   ⟨.blankNode "b0", CREATED,
    .literal ⟨.str "2023-02-09T09:35:07Z", some XSD_DATE_TIME, none⟩⟩,
   ⟨.blankNode "b0", VERIFICATION_METHOD,
    .namedNode "did:example:issuer0#bls12_381-g2-pub001"⟩]

def vcEx : VerifiableCredential := ⟨docEx, proofCfgEx⟩

def boundProofCfgEx : Graph :=
  [⟨.blankNode "b0", rdfTYPE, DATA_INTEGRITY_PROOF⟩,
   ⟨.blankNode "b0", CRYPTOSUITE, .literal ⟨.str CRYPTOSUITE_BOUND_SIGN, none, none⟩⟩,
   ⟨.blankNode "b0", CREATED,
    .literal ⟨.str "2023-02-09T09:35:07Z", some XSD_DATE_TIME, none⟩⟩,
   ⟨.blankNode "b0", VERIFICATION_METHOD,
    .namedNode "did:example:issuer0#bls12_381-g2-pub001"⟩]

def vcBoundEx : VerifiableCredential := ⟨docEx, boundProofCfgEx⟩

def kgEx : KeyGraph :=
  [⟨"did:example:issuer0#bls12_381-g2-pub001", "issuer0-sk", .ofSk "issuer0-sk"⟩]

def commitmentEx : CommitmentG1 := ⟨Fr.fromNat 7, hash_byte_to_field "SECRET"⟩

def reqEx : BlindSigRequest :=
  (blind_sig_request (Fr.fromNat 7) "SECRET" (some "NONCE")).request

/-- The blinded signature blind issuance produces on a one-scalar message
vector under `kgEx`. -/
def blindedSigEx : BlindedSig :=
  ⟨commitmentEx, [(1, Fr.fromNat 5)], "issuer0-sk", 2⟩

/-- VP proof graph carrying a `domain` literal but no `challenge`. -/
def vpProofDomainEx : Graph :=
  [⟨.blankNode "c0", rdfTYPE, DATA_INTEGRITY_PROOF⟩,
   ⟨.blankNode "c0", PROOF_VALUE, .literal ⟨.str "uEncodedProofValue", none, none⟩⟩,
   ⟨.blankNode "c0", DOMAIN, .literal ⟨.str "example.org", none, none⟩⟩]

/-- VP proof graph carrying the challenge literal abcde. -/
def vpProofChallengeEx : Graph :=
  [⟨.blankNode "c0", rdfTYPE, DATA_INTEGRITY_PROOF⟩,
   ⟨.blankNode "c0", PROOF_VALUE, .literal ⟨.str "uEncodedProofValue", none, none⟩⟩,
   ⟨.blankNode "c0", CHALLENGE, .literal ⟨.str "abcde", none, none⟩⟩]

/-- Disclosed credential for the term-equality comparison: one document triple
whose subject is the hidden bridging blank node `e1`, no proof triples. -/
def dvcC9 : DisclosedVC :=
  ⟨[(0, some ⟨.blankNode "e1", "urn:p", .literal ⟨.str "x", none, none⟩⟩)], []⟩

/-- Original credential behind `dvcC9`. -/
def ovcC9 : VCTriples :=
  ⟨[⟨.namedNode "urn:s", "urn:p", .literal ⟨.str "x", none, none⟩⟩], []⟩

/-- The value `get_disclosed_and_undisclosed_terms dvcC9 ovcC9 0 none` computes
to: scalar 1 at slot 0, document terms at 1-3, delimiter at 4. -/
def rC9 : DUTerms :=
  ⟨[(0, Fr.fromNat 1),
    (2, hash_term_to_field (.namedNode "urn:p")),
    (3, hash_term_to_field (.literal ⟨.str "x", none, none⟩)),
    (4, get_delimiter)],
   [(1, hash_term_to_field (RdfTerm.namedNode "urn:s"))],
   [(NamedOrBlankNode.blank "e1", [(0, 1)])], 5⟩

/-- Expected outcome of the challenge coherence check as the spec states it,
for comparison with the embedded `nonce_check`. -/
def expected_challenge_result (nonce c : Option String) : Except RDFProofsError Unit :=
  match nonce, c with
  | none, none => .ok ()
  | none, some _ => .error MissingChallengeInRequest
  | some _, none => .error MissingChallengeInVP
  | some given, some in_vp =>
      if given = in_vp then .ok () else .error MismatchedChallenge

/-- Decidable form of "the VP proof graph has an extractable proofValue
literal" (verify_proof.rs:47-54 succeeds). -/
def proof_value_extractable (vp_proof : Graph) : Bool :=
  match (triplesForPredicate vp_proof PROOF_VALUE).head? with
  | some t => match t.object with | .literal _ => true | _ => false
  | none => false

/-- Decidable form of "the proof config resolves to consistent key material":
the verification method resolves in the key graph to an entry whose public key
is the counterpart of its secret key. -/
def valid_key_material (kg : KeyGraph) (proof_options : Graph) : Bool :=
  match get_verification_method_identifier proof_options with
  | .ok vm =>
      match kg.findEntry vm with
      | some e => decide (e.pk = BBSPublicKey.ofSk e.sk)
      | none => false
  | .error _ => false

/- ------------------------------------------------------------------ -/
/- Helper lemmas                                                       -/
/- ------------------------------------------------------------------ -/

theorem bind_ok {α β : Type} {x : Except RDFProofsError α}
    {f : α → Except RDFProofsError β} {b : β} :
    x.bind f = .ok b ↔ ∃ a, x = .ok a ∧ f a = .ok b := by
  cases x <;> simp [Except.bind]

theorem length_insertSorted (t : Triple) (l : List Triple) :
    (insertSorted t l).length = l.length + 1 := by
  induction l with
  | nil => rfl
  | cons u us ih =>
      simp only [insertSorted]
      split
      · simp
      · simp [ih]

theorem length_sortGraph (g : Graph) : (sortGraph g).length = g.length := by
  induction g with
  | nil => rfl
  | cons t ts ih => simp [sortGraph, length_insertSorted, ih]

theorem length_canonicalizeIntoTerms (g : Graph) :
    (canonicalizeIntoTerms g).length = 3 * g.length := by
  unfold canonicalizeIntoTerms
  rw [← length_sortGraph g]
  generalize sortGraph g = l
  induction l with
  | nil => rfl
  | cons t ts ih => simp [List.flatMap_cons, ih]; omega

/- ------------------------------------------------------------------ -/
/- Claim theorems                                                      -/
/- ------------------------------------------------------------------ -/

/-- C1 counterexample: for the example credential (one document triple, a
four-triple proof config), the encoded message vector produced by the
sign/verify `hash` has `3·1 + 1 + 3·4 = 16` scalars, not
`1 + 3·1 + 1 + 3·4 = 17`, and its index 0 is the hash of the first canonical
document term, not the reserved holder-secret scalar 1. -/
theorem hash_no_secret_slot_counterexample :
    (sigHash (transform docEx proofCfgEx) (canonicalizeIntoTerms proofCfgEx)).length = 16 ∧
    ¬ (sigHash (transform docEx proofCfgEx) (canonicalizeIntoTerms proofCfgEx)).length
        = 1 + 3 * docEx.length + 1 + 3 * proofCfgEx.length ∧
    ¬ (sigHash (transform docEx proofCfgEx) (canonicalizeIntoTerms proofCfgEx)).head?
        = some (Fr.fromNat 1) := by
  refine ⟨by decide, by decide, by decide⟩

/-- C1 amended: the encoded message vector of sign/verify is the hashed
canonical document terms, then the delimiter, then the hashed canonical
proof-config terms — length `3·|doc| + 1 + 3·|proof|`, delimiter at index
`3·|doc|`, with no holder-secret slot; accordingly `get_disclosed_terms` on the
verification side computes `term_count = 3·(|doc| + |proof|) + 1`. -/
theorem encoded_vector_layout :
    ∀ (document proof_config : Graph),
      (sigHash (transform document proof_config) (canonicalizeIntoTerms proof_config)).length
          = 3 * document.length + 1 + 3 * proof_config.length ∧
      sigHash (transform document proof_config) (canonicalizeIntoTerms proof_config)
          = (canonicalizeIntoTerms document).map hash_term_to_field
            ++ [get_delimiter]
            ++ (canonicalizeIntoTerms proof_config).map hash_term_to_field ∧
      (sigHash (transform document proof_config)
          (canonicalizeIntoTerms proof_config))[3 * document.length]?
          = some get_delimiter ∧
      (∀ (dvc : DisclosedVC) (vc_index : Nat),
        (get_disclosed_terms dvc vc_index).term_count
          = 3 * (dvc.document.length + dvc.proof.length) + 1) := by
  intro document proof_config
  refine ⟨?_, rfl, ?_, ?_⟩
  · simp [sigHash, transform, length_canonicalizeIntoTerms]
    omega
  · have hlen : ((canonicalizeIntoTerms document).map hash_term_to_field).length
        = 3 * document.length := by
      simp [length_canonicalizeIntoTerms]
    rw [sigHash, transform, List.append_assoc, List.getElem?_append_right (by omega)]
    simp [hlen]
  · intro dvc vc_index
    simp [get_disclosed_terms]
    ring

/-- C7: with no secret supplied but an opener public key present, the
verifiable-encryption step of `derive_proof` hits `.unwrap()` on
`Err(MissingSecretOrOpenerPubKey)` and panics instead of returning the error
(evaluated here at a concrete failing input: empty `vc_pairs`, a blind-sign
request, no PPID, no domain, `secret = None`, an opener public key). -/
theorem derive_proof_missing_secret_panics :
    derive_proof_head [] (some reqEx) none none none (some "opener-pk")
      = PanicOr.panicked ∧
    encrypt_secret_step none (some "opener-pk") = PanicOr.panicked := by
  exact ⟨rfl, rfl⟩

/-- C6: whenever blind issuance signs a credential whose encoded vector has `n`
scalars, the committed-message signing call uses `params(n + 1)`, carries the
request commitment as the single slot-0 committed message, and assigns the `n`
encoded scalars to the uncommitted slots `1..n` (slot 0 is never uncommitted). -/
theorem enumFrom_shift_fst (l : List Fr) :
    ∀ n : Nat, ((List.enumFrom n l).map (fun p => (p.1 + 1, p.2))).map Prod.fst
      = List.range' (n + 1) l.length := by
  induction l with
  | nil => intro n; rfl
  | cons x xs ih => intro n; simp [List.enumFrom, List.range', ih (n + 1)]

theorem blind_sign_committed_message_layout
    (commitment : CommitmentG1) (hash_data : List Fr) (proof_options : Graph)
    (kg : KeyGraph) (rec : BlindedSig)
    (h : serialize_proof_with_comitted_messages commitment hash_data proof_options kg
        = .ok rec) :
    rec.paramsN = generate_params (hash_data.length + 1) ∧
    rec.committed = commitment ∧
    rec.uncommitted = hash_data.enum.map (fun p => (p.1 + 1, p.2)) ∧
    rec.uncommitted.map Prod.fst = List.range' 1 hash_data.length ∧
    ¬ 0 ∈ rec.uncommitted.map Prod.fst ∧
    ∀ i (hi : i < hash_data.length), (i + 1, hash_data.get ⟨i, hi⟩) ∈ rec.uncommitted := by
  unfold serialize_proof_with_comitted_messages at h
  by_cases hlen : hash_data.length < 2 ^ 32
  · rw [if_pos hlen] at h
    simp only [Bind.bind, pure, Except.pure] at h
    rw [bind_ok] at h
    obtain ⟨_, -, h⟩ := h
    rw [bind_ok] at h
    obtain ⟨vm, hvm, h⟩ := h
    rw [bind_ok] at h
    obtain ⟨p, hkp, h⟩ := h
    obtain ⟨sk, pk⟩ := p
    simp only [Except.ok.injEq] at h
    subst h
    refine ⟨rfl, rfl, rfl, ?_, ?_, ?_⟩
    · exact enumFrom_shift_fst hash_data 0
    · have hfst : ((List.map (fun p => (p.1 + 1, p.2)) hash_data.enum).map Prod.fst)
          = List.range' 1 hash_data.length := enumFrom_shift_fst hash_data 0
      dsimp only
      rw [hfst]
      intro hx
      have := (List.mem_range'_1.mp hx).1
      omega
    · intro i hi
      refine List.mem_map.mpr ⟨(i, hash_data.get ⟨i, hi⟩), ?_, rfl⟩
      rw [List.mk_mem_enum_iff_getElem?, List.getElem?_eq_getElem hi]
      rfl
  · rw [if_neg hlen] at h
    simp [Bind.bind, Except.bind] at h

/-- C6 witness: issuing over the one-scalar vector `[Fr.fromNat 5]` with the
example commitment signs under `params(2)` with the scalar at slot 1. -/
theorem blind_sign_committed_message_layout_witness :
    blindedSigEx.paramsN = generate_params ([Fr.fromNat 5].length + 1) ∧
    blindedSigEx.committed = commitmentEx ∧
    blindedSigEx.uncommitted = [Fr.fromNat 5].enum.map (fun p => (p.1 + 1, p.2)) ∧
    blindedSigEx.uncommitted.map Prod.fst = List.range' 1 [Fr.fromNat 5].length ∧
    ¬ 0 ∈ blindedSigEx.uncommitted.map Prod.fst ∧
    ∀ i (hi : i < [Fr.fromNat 5].length),
      (i + 1, [Fr.fromNat 5].get ⟨i, hi⟩) ∈ blindedSigEx.uncommitted :=
  blind_sign_committed_message_layout commitmentEx [Fr.fromNat 5] proofCfgEx kgEx
    blindedSigEx (by rfl)

/-- C3: `verify_proof` enforces challenge coherence on the VP proof graph: with
an extractable proof value, a supplied nonce without a VP challenge yields
`MissingChallengeInVP`, a VP challenge without a supplied nonce yields
`MissingChallengeInRequest`, differing values yield `MismatchedChallenge`, and
both absent or both equal pass. -/
theorem verify_proof_challenge_coherence (nonce : Option String) (vp_proof : Graph)
    (c : Option String)
    (hpv : proof_value_extractable vp_proof = true)
    (hc : get_nonce_in_vp vp_proof = .ok c) :
    verify_proof_coherence nonce vp_proof = expected_challenge_result nonce c := by
  unfold proof_value_extractable at hpv
  unfold verify_proof_coherence
  cases hh : (triplesForPredicate vp_proof PROOF_VALUE).head? with
  | none => rw [hh] at hpv; simp at hpv
  | some t =>
      rw [hh] at hpv
      dsimp only at hpv
      cases hobj : t.object with
      | namedNode n => rw [hobj] at hpv; simp at hpv
      | blankNode b => rw [hobj] at hpv; simp at hpv
      | literal v =>
          simp only [hh, okOr, Bind.bind, Except.bind]
          simp only [hobj]
          unfold nonce_check
          rw [hc]
          simp only [Bind.bind, Except.bind]
          rfl

/-- C3 witness: a VP proof with challenge literal abcde verified with nonce
abcde passes the coherence check. -/
theorem verify_proof_challenge_coherence_witness :
    verify_proof_coherence (some "abcde") vpProofChallengeEx = .ok () := by
  have h := verify_proof_challenge_coherence (some "abcde") vpProofChallengeEx
    (some "abcde") (by decide) (by rfl)
  simpa [expected_challenge_result] using h

theorem get_nonce_error_cases (g : Graph) (e : RDFProofsError)
    (h : get_nonce_in_vp g = .error e) : e = InvalidChallengeDatatype := by
  unfold get_nonce_in_vp at h
  cases hh : (triplesForPredicate g CHALLENGE).head? with
  | none => rw [hh] at h; simp at h
  | some t =>
      rw [hh] at h
      dsimp only at h
      cases hobj : t.object with
      | literal v => rw [hobj] at h; simp at h
      | namedNode n => rw [hobj] at h; simp at h; exact h.symm
      | blankNode b => rw [hobj] at h; simp at h; exact h.symm

theorem nonce_check_error_cases (nonce : Option String) (g : Graph)
    (e : RDFProofsError) (h : nonce_check nonce g = .error e) :
    e = InvalidChallengeDatatype ∨ e = MissingChallengeInRequest ∨
    e = MissingChallengeInVP ∨ e = MismatchedChallenge := by
  unfold nonce_check at h
  cases hg : get_nonce_in_vp g with
  | error e' =>
      rw [hg] at h
      simp only [Bind.bind, Except.bind] at h
      cases h
      exact Or.inl (get_nonce_error_cases g e hg)
  | ok c =>
      rw [hg] at h
      simp only [Bind.bind, Except.bind] at h
      cases nonce <;> cases c <;> simp_all
      split at h <;> simp_all

theorem verify_proof_coherence_error_cases (nonce : Option String) (g : Graph)
    (e : RDFProofsError) (h : verify_proof_coherence nonce g = .error e) :
    e = InvalidVP ∨ e = InvalidChallengeDatatype ∨ e = MissingChallengeInRequest ∨
    e = MissingChallengeInVP ∨ e = MismatchedChallenge := by
  unfold verify_proof_coherence at h
  cases hh : (triplesForPredicate g PROOF_VALUE).head? with
  | none => rw [hh] at h; simp [okOr, Bind.bind, Except.bind] at h; simp [h]
  | some t =>
      rw [hh] at h
      simp only [okOr, Bind.bind, Except.bind] at h
      cases hobj : t.object with
      | namedNode n => rw [hobj] at h; simp at h; simp [h]
      | blankNode b => rw [hobj] at h; simp at h; simp [h]
      | literal v =>
          rw [hobj] at h
          have := nonce_check_error_cases nonce g e h
          tauto

/-- C4 counterexample: a VP whose proof graph carries the domain literal
example.org, verified with no supplied domain (and no challenge on either
side), passes the pre-verification checks of `verify_proof` with `Ok` — no
domain error is raised, contradicting the claimed symmetric domain coherence. -/
theorem verify_proof_ignores_domain_counterexample :
    verify_proof_coherence none vpProofDomainEx = .ok () ∧
    ¬ verify_proof_coherence none vpProofDomainEx = .error MissingDomainInRequest := by
  have h1 : verify_proof_coherence none vpProofDomainEx = .ok () := by rfl
  refine ⟨h1, fun hcon => ?_⟩
  rw [h1] at hcon
  simp at hcon

/-- C4 amended: `verify_proof` performs no domain-coherence check at all — it
takes no domain argument and its pre-verification stage can only fail with
`InvalidVP` or a challenge-coherence error, never with `MissingDomainInVP`,
`MissingDomainInRequest` or `MismatchedDomain`. -/
theorem verify_proof_no_domain_check (nonce : Option String) (vp_proof : Graph) :
    ¬ verify_proof_coherence nonce vp_proof = .error MissingDomainInVP ∧
    ¬ verify_proof_coherence nonce vp_proof = .error MissingDomainInRequest ∧
    ¬ verify_proof_coherence nonce vp_proof = .error MismatchedDomain := by
  refine ⟨fun h => ?_, fun h => ?_, fun h => ?_⟩ <;>
    rcases verify_proof_coherence_error_cases nonce vp_proof _ h with
      h' | h' | h' | h' | h' <;> simp_all

/-- C5 counterexample: `blind_sign` on a credential whose proof config carries
cryptosuite `bbs-termwise-bound-signature-2023` is rejected with
`InvalidProofConfiguration` even though the request commitment verifies —
the bound cryptosuite does not pass blind issuance. -/
theorem blind_sign_rejects_bound_cryptosuite :
    blind_sign_core reqEx (some "NONCE") vcBoundEx kgEx
      = .error InvalidProofConfiguration := by
  rfl

theorem configure_proof_ok_terms (po : Graph) (t : List RdfTerm)
    (h : configure_proof po = .ok t) : t = canonicalizeIntoTerms po := by
  unfold configure_proof at h
  simp only [Bind.bind, okOr, pure, Except.pure] at h
  repeat'
    first
      | (split at h)
      | (simp only [Except.bind] at h)
  all_goals simp_all

/-- C5 corrected: given a verified blind-sign request, `blind_sign` rejects a
credential whose proof-config cryptosuite is `bbs-termwise-bound-signature-2023`
with `InvalidProofConfiguration`, and succeeds exactly on the plain cryptosuite
`bbs-termwise-signature-2023` (with a well-formed config, resolvable key
material, and a non-overflowing message count). -/
theorem blind_sign_requires_sign_cryptosuite
    (request : BlindSigRequest) (nonce : Option String)
    (vc : VerifiableCredential) (kg : KeyGraph)
    (hreq : verify_blind_sig_request request.commitment request.proof nonce = .ok ()) :
    (∀ subj l,
      subjectForPredicateObject vc.proof rdfTYPE DATA_INTEGRITY_PROOF = some subj →
      objectForSubjectPredicate vc.proof subj CRYPTOSUITE = some (.literal l) →
      l.valueStr = CRYPTOSUITE_BOUND_SIGN →
      blind_sign_core request nonce vc kg = .error InvalidProofConfiguration) ∧
    ((configure_proof vc.proof).isOk = true →
      valid_key_material kg vc.proof = true →
      3 * vc.document.length + 1 + 3 * vc.proof.length < 2 ^ 32 →
      ∃ rec, blind_sign_core request nonce vc kg = .ok rec) := by
  constructor
  · intro subj l hsubj hcs hval
    have hcfg : configure_proof vc.proof = .error InvalidProofConfiguration := by
      unfold configure_proof
      simp only [hsubj, okOr, Bind.bind, Except.bind, hcs, hval]
      have : ¬ CRYPTOSUITE_BOUND_SIGN = CRYPTOSUITE_SIGN := by decide
      simp [this]
    unfold blind_sign_core
    simp only [hreq, Bind.bind, Except.bind, hcfg]
  · intro hcfgok hkey hlen
    obtain ⟨terms, hcf⟩ : ∃ terms, configure_proof vc.proof = .ok terms := by
      cases hx : configure_proof vc.proof with
      | ok t => exact ⟨t, rfl⟩
      | error e => rw [hx] at hcfgok; simp [Except.isOk, Except.toBool] at hcfgok
    unfold valid_key_material at hkey
    cases hvm : get_verification_method_identifier vc.proof with
    | error e => rw [hvm] at hkey; simp at hkey
    | ok vm =>
        rw [hvm] at hkey
        dsimp only at hkey
        cases hfe : kg.findEntry vm with
        | none => rw [hfe] at hkey; simp at hkey
        | some entry =>
            have hterms := configure_proof_ok_terms vc.proof terms hcf
            have hlen' : (sigHash (transform vc.document vc.proof) terms).length < 2 ^ 32 := by
              rw [hterms]
              simp only [sigHash, transform, List.length_append, List.length_map,
                List.length_cons, List.length_nil, length_canonicalizeIntoTerms]
              omega
            unfold blind_sign_core
            simp only [hreq, Bind.bind, Except.bind, hcf]
            unfold serialize_proof_with_comitted_messages
            rw [if_pos hlen']
            simp only [Bind.bind, Except.bind, pure, Except.pure, hvm,
              KeyGraph.get_keypair, hfe]
            exact ⟨_, rfl⟩

/-- C5 amended-claim witness: blind issuance over the example credential with
the plain sign cryptosuite and a verified request succeeds. -/
theorem blind_sign_requires_sign_cryptosuite_witness :
    ∃ rec, blind_sign_core reqEx (some "NONCE") vcEx kgEx = .ok rec :=
  (blind_sign_requires_sign_cryptosuite reqEx (some "NONCE") vcEx kgEx (by rfl)).2
    (by rfl) (by rfl) (by decide)

theorem configure_proof_ok_subject (po : Graph) (t : List RdfTerm)
    (h : configure_proof po = .ok t) :
    ∃ subj, subjectForPredicateObject po rdfTYPE DATA_INTEGRITY_PROOF = some subj := by
  cases hs : subjectForPredicateObject po rdfTYPE DATA_INTEGRITY_PROOF with
  | some s => exact ⟨s, rfl⟩
  | none =>
      unfold configure_proof at h
      rw [hs] at h
      simp [okOr, Bind.bind, Except.bind] at h

theorem tfp_append_pv (g : Graph) (pvt : Triple)
    (hg : ∀ t ∈ g, ¬ t.predicate = PROOF_VALUE) (hp : pvt.predicate = PROOF_VALUE) :
    triplesForPredicate (g ++ [pvt]) PROOF_VALUE = [pvt] := by
  unfold triplesForPredicate
  rw [List.filter_append,
    List.filter_eq_nil_iff.mpr (by intro t ht; simpa using hg t ht)]
  simp [hp]

theorem filter_nonpv_append (g : Graph) (pvt : Triple)
    (hg : ∀ t ∈ g, ¬ t.predicate = PROOF_VALUE) (hp : pvt.predicate = PROOF_VALUE) :
    (g ++ [pvt]).filter (fun t => decide (¬ t.predicate = PROOF_VALUE)) = g := by
  rw [List.filter_append,
    List.filter_eq_self.mpr (by intro t ht; simpa using hg t ht)]
  simp [hp]

/-- C2: for every credential whose proof config passes `configure_proof`
(DataIntegrityProof type, sign cryptosuite, valid xsd:dateTime `created`),
whose verification method resolves in the key graph to consistent keypair
material, and whose proof graph does not already carry a `proofValue`,
`verify` accepts the output of `sign` under the same key graph. -/
theorem sign_verify_roundtrip (vc : VerifiableCredential) (kg : KeyGraph)
    (hcfg : (configure_proof vc.proof).isOk = true)
    (hkey : valid_key_material kg vc.proof = true)
    (hnopv : vc.proof.all (fun t => decide (¬ t.predicate = PROOF_VALUE)) = true) :
    ∃ vc', sign vc kg = .ok vc' ∧ verify vc' kg = .ok () := by
  obtain ⟨terms, hcf⟩ : ∃ terms, configure_proof vc.proof = .ok terms := by
    cases hx : configure_proof vc.proof with
    | ok t => exact ⟨t, rfl⟩
    | error e => rw [hx] at hcfg; simp [Except.isOk, Except.toBool] at hcfg
  obtain ⟨subj, hsubj⟩ := configure_proof_ok_subject vc.proof terms hcf
  unfold valid_key_material at hkey
  cases hvm : get_verification_method_identifier vc.proof with
  | error e => rw [hvm] at hkey; simp at hkey
  | ok vm =>
  rw [hvm] at hkey
  dsimp only at hkey
  cases hfe : kg.findEntry vm with
  | none => rw [hfe] at hkey; simp at hkey
  | some entry =>
  rw [hfe] at hkey
  have hpk : entry.pk = BBSPublicKey.ofSk entry.sk := of_decide_eq_true hkey
  have hno : ∀ t ∈ vc.proof, ¬ t.predicate = PROOF_VALUE := by
    intro t ht
    simpa using List.all_eq_true.mp hnopv t ht
  set hash_data := sigHash (transform vc.document vc.proof) terms with hhd
  set sig : BBSSig := ⟨hash_data, entry.sk, generate_params hash_data.length⟩ with hsigdef
  set pvt : Triple := ⟨subj, PROOF_VALUE, .literal ⟨.sigVal sig, none, none⟩⟩ with hpvtdef
  refine ⟨⟨vc.document, vc.proof ++ [pvt]⟩, ?_, ?_⟩
  · unfold sign serialize_proof add_proof_value
    simp only [hcf, Bind.bind, Except.bind, hvm, KeyGraph.get_keypair, hfe,
      pure, Except.pure, hsubj, okOr]
  · have hpvtpred : pvt.predicate = PROOF_VALUE := by rw [hpvtdef]
    have hobj : pvt.object = .literal ⟨.sigVal sig, none, none⟩ := by rw [hpvtdef]
    have hf1 := tfp_append_pv vc.proof pvt hno hpvtpred
    have hf2 := filter_nonpv_append vc.proof pvt hno hpvtpred
    unfold verify
    dsimp only
    simp only [hf1, List.head?_cons, okOr, Bind.bind, Except.bind, hobj, hf2, hcf]
    unfold verify_base_proof
    simp only [hvm, KeyGraph.get_public_key, hfe, Bind.bind, Except.bind,
      pure, Except.pure]
    rw [if_pos]
    exact ⟨rfl, rfl, hpk⟩

/-- C2 witness: signing then verifying the example credential under the
example key graph succeeds. -/
theorem sign_verify_roundtrip_witness :
    ∃ vc', sign vcEx kgEx = .ok vc' ∧ verify vc' kgEx = .ok () :=
  sign_verify_roundtrip vcEx kgEx (by rfl) (by rfl) (by rfl)

theorem positionOf_none_of_not_mem (orig : List Triple) (d : Triple)
    (h : ¬ d ∈ orig) : positionOf orig d = none := by
  induction orig with
  | nil => rfl
  | cons o os ih =>
      unfold positionOf
      have hne : ¬ d = o := fun he => h (he ▸ List.mem_cons_self o os)
      rw [if_neg hne, ih (fun hm => h (List.mem_cons_of_mem o hm))]
      rfl

theorem positionOf_isSome_of_mem (orig : List Triple) (d : Triple)
    (h : d ∈ orig) : ∃ i, positionOf orig d = some i := by
  induction orig with
  | nil => cases h
  | cons o os ih =>
      unfold positionOf
      by_cases he : d = o
      · exact ⟨0, by rw [if_pos he]⟩
      · rcases ih (by rcases List.mem_cons.mp h with h' | h'; exact absurd h' he; exact h') with ⟨i, hi⟩
        exact ⟨i + 1, by rw [if_neg he, hi]; rfl⟩

theorem positionsIn_error_unique (orig ds : List Triple) (e : RDFProofsError)
    (h : positionsIn orig ds = .error e) :
    e = DisclosedVCIsNotSubsetOfOriginalVC := by
  induction ds generalizing e with
  | nil => simp [positionsIn] at h
  | cons d ds ih =>
      unfold positionsIn at h
      cases hp : positionOf orig d with
      | none => rw [hp] at h; simp [okOr, Bind.bind, Except.bind] at h; exact h.symm
      | some i =>
          rw [hp] at h
          simp only [okOr, Bind.bind, Except.bind] at h
          cases hrec : positionsIn orig ds with
          | error e' =>
              rw [hrec] at h
              simp at h
              exact h ▸ ih e' hrec
          | ok is => rw [hrec] at h; simp at h

theorem positionsIn_error_of_missing (orig ds : List Triple)
    (h : ∃ d ∈ ds, ¬ d ∈ orig) :
    positionsIn orig ds = .error DisclosedVCIsNotSubsetOfOriginalVC := by
  induction ds with
  | nil => rcases h with ⟨d, hd, -⟩; cases hd
  | cons d ds ih =>
      unfold positionsIn
      rcases h with ⟨x, hx, hxm⟩
      rcases List.mem_cons.mp hx with rfl | hx'
      · rw [positionOf_none_of_not_mem orig x hxm]
        rfl
      · cases hp : positionOf orig d with
        | none => rfl
        | some i =>
            simp only [okOr, Bind.bind, Except.bind, ih ⟨x, hx', hxm⟩]

theorem pairIndexMap_error_unique (d o : VCTriples) (e : RDFProofsError)
    (h : pairIndexMap d o = .error e) :
    e = DisclosedVCIsNotSubsetOfOriginalVC := by
  unfold pairIndexMap at h
  simp only [Bind.bind, Except.bind] at h
  cases h1 : positionsIn o.document d.document with
  | error e1 =>
      rw [h1] at h
      cases h
      exact positionsIn_error_unique _ _ _ h1
  | ok is1 =>
      rw [h1] at h
      cases h2 : positionsIn o.proof d.proof with
      | error e2 =>
          rw [h2] at h
          cases h
          exact positionsIn_error_unique _ _ _ h2
      | ok is2 => rw [h2] at h; simp at h

theorem pairIndexMap_error_of_missing (d o : VCTriples)
    (h : (∃ t ∈ d.document, ¬ t ∈ o.document) ∨ (∃ t ∈ d.proof, ¬ t ∈ o.proof)) :
    pairIndexMap d o = .error DisclosedVCIsNotSubsetOfOriginalVC := by
  unfold pairIndexMap
  rcases h with h | h
  · simp only [positionsIn_error_of_missing _ _ h, Bind.bind, Except.bind]
  · cases h1 : positionsIn o.document d.document with
    | error e1 =>
        have := positionsIn_error_unique _ _ _ h1
        subst this
        simp only [Bind.bind, Except.bind]
    | ok is1 =>
        simp only [Bind.bind, Except.bind, positionsIn_error_of_missing _ _ h]

theorem pairIndexMaps_error_of_missing (pairs : List (VCTriples × VCTriples))
    (h : ∃ p ∈ pairs, (∃ t ∈ p.1.document, ¬ t ∈ p.2.document) ∨
      (∃ t ∈ p.1.proof, ¬ t ∈ p.2.proof)) :
    pairIndexMaps pairs = .error DisclosedVCIsNotSubsetOfOriginalVC := by
  induction pairs with
  | nil => rcases h with ⟨p, hp, -⟩; cases hp
  | cons q rest ih =>
      unfold pairIndexMaps
      rcases h with ⟨p, hp, hbad⟩
      rcases List.mem_cons.mp hp with rfl | hp'
      · simp only [pairIndexMap_error_of_missing p.1 p.2 hbad, Bind.bind, Except.bind]
      · cases h1 : pairIndexMap q.1 q.2 with
        | error e1 =>
            have := pairIndexMap_error_unique _ _ _ h1
            subst this
            simp only [Bind.bind, Except.bind]
        | ok m1 =>
            simp only [Bind.bind, Except.bind, ih ⟨p, hp', hbad⟩]

/-- C8: if, after applying the extended deanonymization map, some disclosed
triple of a credential pair does not occur among the corresponding original
credential's triples (document or proof), `gen_index_map` — and hence
`derive_proof`, which propagates it — returns
`DisclosedVCIsNotSubsetOfOriginalVC`. -/
theorem gen_index_map_subset_error (original_vc_vec disclosed_vc_vec : List VCTriples)
    (m : DeanonMap) (disclosed' : List VCTriples)
    (hde : deanonymize_vc_vec m disclosed_vc_vec = .ok disclosed')
    (hbad : ∃ p ∈ disclosed'.zip original_vc_vec,
      (∃ t ∈ p.1.document, ¬ t ∈ p.2.document) ∨ (∃ t ∈ p.1.proof, ¬ t ∈ p.2.proof)) :
    gen_index_map original_vc_vec disclosed_vc_vec m
      = .error DisclosedVCIsNotSubsetOfOriginalVC := by
  unfold gen_index_map
  simp only [hde, Bind.bind, Except.bind]
  exact pairIndexMaps_error_of_missing _ hbad

/-- C8 witness: a disclosed credential whose (deanonymized) document triple
does not occur in the original document produces the subset error. -/
theorem gen_index_map_subset_error_witness :
    gen_index_map
      [⟨[⟨.namedNode "did:example:john", "http://schema.org/name",
          .literal ⟨.str "John Smith", none, none⟩⟩], []⟩]
      [⟨[⟨.namedNode "did:example:john", "http://schema.org/name",
          .literal ⟨.str "Alice", none, none⟩⟩], []⟩]
      [] = .error DisclosedVCIsNotSubsetOfOriginalVC :=
  gen_index_map_subset_error
    [⟨[⟨.namedNode "did:example:john", "http://schema.org/name",
        .literal ⟨.str "John Smith", none, none⟩⟩], []⟩]
    [⟨[⟨.namedNode "did:example:john", "http://schema.org/name",
        .literal ⟨.str "Alice", none, none⟩⟩], []⟩]
    []
    [⟨[⟨.namedNode "did:example:john", "http://schema.org/name",
        .literal ⟨.str "Alice", none, none⟩⟩], []⟩]
    (by rfl) (by decide)

/- C9 helper lemmas: the BTreeSet model and key uniqueness of the merge. -/

theorem mem_insertPos (a x : Nat × Nat) (l : List (Nat × Nat)) :
    a ∈ insertPos x l ↔ a = x ∨ a ∈ l := by
  induction l with
  | nil => simp [insertPos]
  | cons y ys ih =>
      unfold insertPos
      by_cases he : x = y
      · subst he
        simp [List.mem_cons] <;> tauto
      · rw [if_neg he]
        by_cases hle : posLe x y
        · rw [if_pos hle]
          simp [List.mem_cons] <;> tauto
        · rw [if_neg hle]
          simp [List.mem_cons, ih] <;> tauto

theorem length_insertPos_of_not_mem (x : Nat × Nat) (l : List (Nat × Nat))
    (h : ¬ x ∈ l) : (insertPos x l).length = l.length + 1 := by
  induction l with
  | nil => rfl
  | cons y ys ih =>
      unfold insertPos
      have hne : ¬ x = y := fun he => h (he ▸ List.mem_cons_self y ys)
      rw [if_neg hne]
      by_cases hle : posLe x y
      · rw [if_pos hle]; rfl
      · rw [if_neg hle]
        simp [ih (fun hm => h (List.mem_cons_of_mem y hm))]

theorem toPosSet_cons (x : Nat × Nat) (v : List (Nat × Nat)) :
    toPosSet (x :: v) = insertPos x (toPosSet v) := rfl

theorem mem_toPosSet (a : Nat × Nat) (v : List (Nat × Nat)) :
    a ∈ toPosSet v ↔ a ∈ v := by
  induction v with
  | nil => simp [toPosSet]
  | cons x xs ih =>
      rw [toPosSet_cons]
      simp [mem_insertPos, ih, List.mem_cons]

theorem length_toPosSet_of_nodup (v : List (Nat × Nat)) (h : v.Nodup) :
    (toPosSet v).length = v.length := by
  induction v with
  | nil => rfl
  | cons x xs ih =>
      have hx : ¬ x ∈ xs := (List.nodup_cons.mp h).1
      have hxs : xs.Nodup := (List.nodup_cons.mp h).2
      rw [toPosSet_cons,
        length_insertPos_of_not_mem x _ (fun hm => hx ((mem_toPosSet x xs).mp hm)),
        ih hxs, List.length_cons]

theorem mem_keys_extendEquiv (a k : NamedOrBlankNode) (v : List (Nat × Nat))
    (eqs : EquivMap) :
    a ∈ (extendEquiv eqs k v).map Prod.fst ↔ a ∈ eqs.map Prod.fst ∨ a = k := by
  induction eqs with
  | nil => simp [extendEquiv]
  | cons kv rest ih =>
      unfold extendEquiv
      by_cases he : kv.1 = k
      · rw [if_pos he]
        subst he
        simp [List.mem_cons]
        tauto
      · rw [if_neg he]
        simp [List.mem_cons, ih]
        tauto

theorem nodup_keys_extendEquiv (k : NamedOrBlankNode) (v : List (Nat × Nat))
    (eqs : EquivMap) (h : (eqs.map Prod.fst).Nodup) :
    ((extendEquiv eqs k v).map Prod.fst).Nodup := by
  induction eqs with
  | nil => simp [extendEquiv]
  | cons kv rest ih =>
      unfold extendEquiv
      by_cases he : kv.1 = k
      · rw [if_pos he]
        simpa using h
      · rw [if_neg he]
        simp only [List.map_cons, List.nodup_cons] at h ⊢
        refine ⟨fun hm => ?_, ih h.2⟩
        rcases (mem_keys_extendEquiv kv.1 k v rest).mp hm with hm' | hm'
        · exact h.1 hm'
        · exact he hm'

theorem nodup_keys_foldl_extend (part : EquivMap) :
    ∀ acc : EquivMap, (acc.map Prod.fst).Nodup →
      ((part.foldl (fun a kv => extendEquiv a kv.1 kv.2) acc).map Prod.fst).Nodup := by
  induction part with
  | nil => intro acc h; simpa using h
  | cons kv rest ih =>
      intro acc h
      exact ih (extendEquiv acc kv.1 kv.2) (nodup_keys_extendEquiv kv.1 kv.2 acc h)

theorem mem_keys_insertByKey (a : NamedOrBlankNode)
    (e : NamedOrBlankNode × List (Nat × Nat)) (l : EquivMap) :
    a ∈ (insertByKey e l).map Prod.fst ↔ a = e.1 ∨ a ∈ l.map Prod.fst := by
  induction l with
  | nil => simp [insertByKey]
  | cons f fs ih =>
      unfold insertByKey
      by_cases hle : e.1.key ≤ f.1.key
      · rw [if_pos hle]
        simp [List.mem_cons]
      · rw [if_neg hle]
        simp [List.mem_cons, ih]
        tauto

theorem mem_keys_sortEquivs (a : NamedOrBlankNode) (l : EquivMap) :
    a ∈ (sortEquivs l).map Prod.fst ↔ a ∈ l.map Prod.fst := by
  induction l with
  | nil => simp [sortEquivs]
  | cons e es ih =>
      unfold sortEquivs
      rw [mem_keys_insertByKey]
      simp [List.map_cons, List.mem_cons, ih]

theorem nodup_keys_insertByKey (e : NamedOrBlankNode × List (Nat × Nat)) :
    ∀ (l : EquivMap), ¬ e.1 ∈ l.map Prod.fst → (l.map Prod.fst).Nodup →
    ((insertByKey e l).map Prod.fst).Nodup := by
  intro l
  induction l with
  | nil => intro _ _; simp [insertByKey]
  | cons f fs ih =>
      intro hfresh h
      unfold insertByKey
      by_cases hle : e.1.key ≤ f.1.key
      · rw [if_pos hle]
        simp only [List.map_cons, List.nodup_cons, List.mem_cons]
        refine ⟨fun hm => hfresh (by simpa using hm), by simpa using h⟩
      · rw [if_neg hle]
        simp only [List.map_cons, List.nodup_cons] at h ⊢
        simp only [List.map_cons, List.mem_cons] at hfresh
        push_neg at hfresh
        refine ⟨fun hm => ?_, ih hfresh.2 h.2⟩
        rcases (mem_keys_insertByKey f.1 e fs).mp hm with hm' | hm'
        · exact hfresh.1 hm'.symm
        · exact h.1 hm'

theorem nodup_keys_sortEquivs (l : EquivMap) (h : (l.map Prod.fst).Nodup) :
    ((sortEquivs l).map Prod.fst).Nodup := by
  induction l with
  | nil => simp [sortEquivs]
  | cons e es ih =>
      unfold sortEquivs
      simp only [List.map_cons, List.nodup_cons] at h
      exact nodup_keys_insertByKey e (sortEquivs es)
        (fun hm => h.1 ((mem_keys_sortEquivs e.1 es).mp hm)) (ih h.2)

/-- The merged equivalence table has pairwise-distinct canonical identifiers:
each identifier owns exactly one entry. -/
theorem mergeEquivs_keys_nodup (parts : List EquivMap) :
    ((mergeEquivs parts).map Prod.fst).Nodup := by
  unfold mergeEquivs
  apply nodup_keys_sortEquivs
  have hgen : ∀ (ps : List EquivMap) (acc : EquivMap), (acc.map Prod.fst).Nodup →
      ((ps.foldl (fun acc part =>
        part.foldl (fun a kv => extendEquiv a kv.1 kv.2) acc) acc).map Prod.fst).Nodup := by
    intro ps
    induction ps with
    | nil => intro acc h; simpa using h
    | cons p rest ih =>
        intro acc h
        exact ih _ (nodup_keys_foldl_extend p acc h)
  exact hgen parts [] (by simp)

theorem meta_statements_agree (eqs : EquivMap) (hnd : ∀ kv ∈ eqs, kv.2.Nodup) :
    derive_meta_statements [] [] eqs
      = eqs.filterMap (fun kv => if 1 < kv.2.length then some (toPosSet kv.2) else none)
    ∧ verify_meta_statements eqs
      = eqs.filterMap (fun kv => if 1 < kv.2.length then some (toPosSet kv.2) else none) := by
  induction eqs with
  | nil => exact ⟨rfl, rfl⟩
  | cons kv rest ih =>
      have hkv : kv.2.Nodup := hnd kv (List.mem_cons_self _ _)
      have hrest := ih (fun x hx => hnd x (List.mem_cons_of_mem _ hx))
      have hlen : (toPosSet kv.2).length = kv.2.length :=
        length_toPosSet_of_nodup _ hkv
      unfold derive_meta_statements verify_meta_statements at hrest ⊢
      simp only [List.zip_nil_left, List.foldl_nil] at hrest ⊢
      by_cases hc : 1 < kv.2.length
      · simp [List.filterMap_cons, List.filter_cons, hlen, hc, hrest.1, hrest.2]
      · simp [List.filterMap_cons, List.filter_cons, hlen, hc, hrest.1, hrest.2]

/- C9 shift lemmas: the derive side counts the slot-0 holder secret
(derive_proof.rs:1311-1317, document terms from index 1), the verify side does
not (verify_proof.rs:229, document terms from index 0), so every position the
derive side records is the verify-side position with the message index raised
by one. -/

theorem shiftPos_mk (a b : Nat) : shiftPos (a, b) = (a, b + 1) := rfl

theorem shiftEquivs_nil : shiftEquivs [] = [] := rfl

theorem shiftEquivs_cons (kv : NamedOrBlankNode × List (Nat × Nat)) (rest : EquivMap) :
    shiftEquivs (kv :: rest) = (kv.1, kv.2.map shiftPos) :: shiftEquivs rest := rfl

theorem pushEquiv_shift (e : EquivMap) (k : NamedOrBlankNode) (a b : Nat) :
    pushEquiv (shiftEquivs e) k (a, b + 1) = shiftEquivs (pushEquiv e k (a, b)) := by
  induction e with
  | nil => rfl
  | cons kv rest ih =>
      obtain ⟨k', v⟩ := kv
      rw [shiftEquivs_cons]
      by_cases he : k' = k
      · simp [pushEquiv, he, shiftEquivs_cons, shiftPos_mk]
      · simp [pushEquiv, he, shiftEquivs_cons, ih]

theorem add_shift3 (i : Nat) : i + 1 + 2 = i + 2 + 1 := rfl

set_option maxHeartbeats 1600000 in
theorem build_equivs_shift (dt : Option Triple) (i vc : Nat) (orig : Triple)
    (stD : DUState) (stV : DTState) (h : stD.equivs = shiftEquivs stV.equivs) :
    (build_disclosed_and_undisclosed_terms dt (i + 1) vc orig stD).equivs
      = shiftEquivs ((build_disclosed_terms dt i vc stV).equivs) := by
  unfold build_disclosed_and_undisclosed_terms build_disclosed_terms
  cases dt with
  | none => simpa using h
  | some t =>
      obtain ⟨ts, tp, to2⟩ := t
      dsimp only
      cases ts <;> cases to2 <;>
        simp only [apply_ite DUState.equivs, apply_ite DTState.equivs] <;>
        split_ifs <;>
        simp [add_shift3, h, pushEquiv_shift]

theorem processDU_length (orig : List Triple) (vc : Nat) :
    ∀ (ds : List (Nat × Option Triple)) (idx : Nat) (st st' : DUState) (idx' : Nat),
      processDUTriples orig vc ds idx st = .ok (st', idx') →
      idx' = idx + 3 * ds.length := by
  intro ds
  induction ds with
  | nil =>
      intro idx st st' idx' h
      unfold processDUTriples at h
      simp only [Except.ok.injEq, Prod.mk.injEq] at h
      obtain ⟨-, h2⟩ := h
      simp [← h2]
  | cons jd rest ih =>
      intro idx st st' idx' h
      obtain ⟨j, dt⟩ := jd
      unfold processDUTriples at h
      simp only [Bind.bind] at h
      rw [bind_ok] at h
      obtain ⟨o, -, h⟩ := h
      have := ih (idx + 3) _ _ _ h
      simp only [List.length_cons]
      omega

theorem foldDoc_eq_foldProof0 (vc : Nat) :
    ∀ (ds : List (Nat × Option Triple)) (st : DTState),
      foldDocTriples vc ds st = foldProofTriples vc 0 ds st := by
  intro ds
  induction ds with
  | nil => intro st; rfl
  | cons jd rest ih =>
      intro st
      obtain ⟨j, dt⟩ := jd
      unfold foldDocTriples foldProofTriples
      simp only [Nat.add_zero]
      exact ih _

theorem foldDU_equivs_shift (orig : List Triple) (vc base : Nat) :
    ∀ (ds : List (Nat × Option Triple)) (j0 idx0 : Nat) (stD : DUState) (stV : DTState)
      (stD' : DUState) (idx' : Nat),
      idx0 = 3 * j0 + base + 1 →
      ds.map Prod.fst = List.range' j0 ds.length →
      processDUTriples orig vc ds idx0 stD = .ok (stD', idx') →
      stD.equivs = shiftEquivs stV.equivs →
      stD'.equivs = shiftEquivs ((foldProofTriples vc base ds stV).equivs) := by
  intro ds
  induction ds with
  | nil =>
      intro j0 idx0 stD stV stD' idx' hidx hk h hs
      unfold processDUTriples at h
      simp only [Except.ok.injEq, Prod.mk.injEq] at h
      obtain ⟨h1, -⟩ := h
      subst h1
      exact hs
  | cons jd rest ih =>
      intro j0 idx0 stD stV stD' idx' hidx hk h hs
      obtain ⟨j, dt⟩ := jd
      simp only [List.map_cons, List.length_cons, List.range'_succ, List.cons.injEq] at hk
      obtain ⟨hj, hkrest⟩ := hk
      subst hidx
      subst hj
      unfold processDUTriples at h
      simp only [Bind.bind] at h
      rw [bind_ok] at h
      obtain ⟨o, -, h⟩ := h
      unfold foldProofTriples
      exact ih (j + 1) (3 * j + base + 1 + 3)
        (build_disclosed_and_undisclosed_terms dt (3 * j + base + 1) vc o stD)
        (build_disclosed_terms dt (3 * j + base) vc stV) stD' idx'
        (by omega) hkrest h
        (build_equivs_shift dt (3 * j + base) vc o stD stV hs)

theorem du_stages_shift (dvc : DisclosedVC) (ovc : VCTriples) (vc_index : Nat)
    (st0 st1 : DUState) (idx1 : Nat) (st3 : DUState) (idx3 : Nat)
    (hkd : dvc.document.map Prod.fst = List.range' 0 dvc.document.length)
    (hkp : dvc.proof.map Prod.fst = List.range' 0 dvc.proof.length)
    (h0 : st0.equivs = shiftEquivs ([] : EquivMap))
    (h1 : processDUTriples ovc.document vc_index dvc.document 1 st0 = .ok (st1, idx1))
    (h3 : processDUTriples ovc.proof vc_index dvc.proof (idx1 + 1)
        { st1 with disclosed := st1.disclosed.insert idx1 get_delimiter } = .ok (st3, idx3)) :
    st3.equivs = shiftEquivs (get_disclosed_terms dvc vc_index).equivs := by
  have hlen1 := processDU_length ovc.document vc_index dvc.document 1 st0 st1 idx1 h1
  rw [show (1 : Nat) = 3 * 0 + 0 + 1 from rfl] at h1
  have hdoc := foldDU_equivs_shift ovc.document vc_index 0 dvc.document 0 (3 * 0 + 0 + 1)
      st0 ⟨[], []⟩ st1 idx1 rfl hkd h1 h0
  rw [← foldDoc_eq_foldProof0] at hdoc
  rw [show idx1 + 1 = 3 * 0 + (dvc.document.length * 3 + 1) + 1 by omega] at h3
  have hproof := foldDU_equivs_shift ovc.proof vc_index (dvc.document.length * 3 + 1)
      dvc.proof 0 (3 * 0 + (dvc.document.length * 3 + 1) + 1)
      { st1 with disclosed := st1.disclosed.insert idx1 get_delimiter }
      { foldDocTriples vc_index dvc.document ⟨[], []⟩ with
          disclosed := (foldDocTriples vc_index dvc.document ⟨[], []⟩).disclosed.insert
            (dvc.document.length * 3) get_delimiter }
      st3 idx3 rfl hkp h3 hdoc
  exact hproof

theorem get_du_equivs_shift (dvc : DisclosedVC) (ovc : VCTriples) (vc_index : Nat)
    (secret : Option String) (r : DUTerms)
    (hkd : dvc.document.map Prod.fst = List.range' 0 dvc.document.length)
    (hkp : dvc.proof.map Prod.fst = List.range' 0 dvc.proof.length)
    (h : get_disclosed_and_undisclosed_terms dvc ovc vc_index secret = .ok r) :
    r.equivs = shiftEquivs (get_disclosed_terms dvc vc_index).equivs := by
  cases secret with
  | none =>
      unfold get_disclosed_and_undisclosed_terms at h
      simp only [Bind.bind] at h
      rw [bind_ok] at h
      obtain ⟨⟨st1, idx1⟩, h1, h⟩ := h
      dsimp only at h
      rw [bind_ok] at h
      obtain ⟨⟨st3, idx3⟩, h3, h⟩ := h
      dsimp only at h
      simp only [Except.ok.injEq] at h
      subst h
      exact du_stages_shift dvc ovc vc_index _ st1 idx1 st3 idx3 hkd hkp rfl h1 h3
  | some sec =>
      unfold get_disclosed_and_undisclosed_terms at h
      simp only [Bind.bind] at h
      rw [bind_ok] at h
      obtain ⟨⟨st1, idx1⟩, h1, h⟩ := h
      dsimp only at h
      rw [bind_ok] at h
      obtain ⟨⟨st3, idx3⟩, h3, h⟩ := h
      dsimp only at h
      simp only [Except.ok.injEq] at h
      subst h
      exact du_stages_shift dvc ovc vc_index _ st1 idx1 st3 idx3 hkd hkp rfl h1 h3

theorem extendEquiv_shift (eqs : EquivMap) (k : NamedOrBlankNode) (v : List (Nat × Nat)) :
    extendEquiv (shiftEquivs eqs) k (v.map shiftPos) = shiftEquivs (extendEquiv eqs k v) := by
  induction eqs with
  | nil => rfl
  | cons kv rest ih =>
      obtain ⟨k', v'⟩ := kv
      rw [shiftEquivs_cons]
      by_cases he : k' = k
      · simp [extendEquiv, he, shiftEquivs_cons]
      · simp [extendEquiv, he, shiftEquivs_cons, ih]

theorem foldl_extend_shift (part : EquivMap) :
    ∀ acc : EquivMap,
      (shiftEquivs part).foldl (fun a kv => extendEquiv a kv.1 kv.2) (shiftEquivs acc)
        = shiftEquivs (part.foldl (fun a kv => extendEquiv a kv.1 kv.2) acc) := by
  induction part with
  | nil => intro acc; rfl
  | cons kv rest ih =>
      intro acc
      rw [shiftEquivs_cons]
      simp only [List.foldl_cons]
      rw [extendEquiv_shift, ih]

theorem foldl_parts_shift (parts : List EquivMap) :
    ∀ acc : EquivMap,
      (parts.map shiftEquivs).foldl
        (fun acc part => part.foldl (fun a kv => extendEquiv a kv.1 kv.2) acc)
        (shiftEquivs acc)
        = shiftEquivs (parts.foldl
            (fun acc part => part.foldl (fun a kv => extendEquiv a kv.1 kv.2) acc) acc) := by
  induction parts with
  | nil => intro acc; rfl
  | cons p rest ih =>
      intro acc
      simp only [List.map_cons, List.foldl_cons]
      rw [foldl_extend_shift, ih]

theorem insertByKey_shift (e : NamedOrBlankNode × List (Nat × Nat)) (l : EquivMap) :
    insertByKey (e.1, e.2.map shiftPos) (shiftEquivs l) = shiftEquivs (insertByKey e l) := by
  induction l with
  | nil => rfl
  | cons f fs ih =>
      obtain ⟨fk, fv⟩ := f
      rw [shiftEquivs_cons]
      by_cases hle : e.1.key ≤ fk.key
      · simp [insertByKey, hle, shiftEquivs_cons]
      · simp [insertByKey, hle, shiftEquivs_cons, ih]

theorem sortEquivs_shift (l : EquivMap) :
    sortEquivs (shiftEquivs l) = shiftEquivs (sortEquivs l) := by
  induction l with
  | nil => rfl
  | cons e es ih =>
      rw [shiftEquivs_cons]
      unfold sortEquivs
      rw [ih]
      exact insertByKey_shift e (sortEquivs es)

theorem mergeEquivs_shift (parts : List EquivMap) :
    mergeEquivs (parts.map shiftEquivs) = shiftEquivs (mergeEquivs parts) := by
  unfold mergeEquivs
  rw [← sortEquivs_shift]
  congr 1
  exact foldl_parts_shift parts []

theorem posLe_shift (a b : Nat × Nat) : posLe (shiftPos a) (shiftPos b) = posLe a b := by
  unfold posLe shiftPos
  simp only [decide_eq_decide]
  omega

theorem shiftPos_inj (a b : Nat × Nat) (h : shiftPos a = shiftPos b) : a = b := by
  obtain ⟨a1, a2⟩ := a
  obtain ⟨b1, b2⟩ := b
  simp only [shiftPos, Prod.mk.injEq] at h ⊢
  omega

theorem insertPos_shift (x : Nat × Nat) (l : List (Nat × Nat)) :
    insertPos (shiftPos x) (l.map shiftPos) = (insertPos x l).map shiftPos := by
  induction l with
  | nil => rfl
  | cons y ys ih =>
      simp only [List.map_cons]
      unfold insertPos
      by_cases hxy : x = y
      · subst hxy
        simp
      · have hne : ¬ shiftPos x = shiftPos y := fun hc => hxy (shiftPos_inj x y hc)
        rw [if_neg hne, if_neg hxy, posLe_shift]
        by_cases hle : posLe x y
        · rw [if_pos hle, if_pos hle]
          simp
        · rw [if_neg hle, if_neg hle, ih]
          simp

theorem toPosSet_shift (v : List (Nat × Nat)) :
    toPosSet (v.map shiftPos) = (toPosSet v).map shiftPos := by
  induction v with
  | nil => rfl
  | cons x xs ih =>
      simp only [List.map_cons, toPosSet_cons, ih, insertPos_shift]

theorem derive_meta_shift (eqs : EquivMap) (hnd : ∀ kv ∈ eqs, kv.2.Nodup) :
    derive_meta_statements [] [] (shiftEquivs eqs)
      = (verify_meta_statements eqs).map (List.map shiftPos) := by
  induction eqs with
  | nil => rfl
  | cons kv rest ih =>
      have hkv : kv.2.Nodup := hnd kv (List.mem_cons_self _ _)
      have hrest := ih (fun x hx => hnd x (List.mem_cons_of_mem _ hx))
      have hlen : (toPosSet kv.2).length = kv.2.length := length_toPosSet_of_nodup _ hkv
      rw [shiftEquivs_cons]
      unfold derive_meta_statements verify_meta_statements at hrest ⊢
      simp only [List.zip_nil_left, List.foldl_nil] at hrest ⊢
      by_cases hc : 1 < kv.2.length
      · simp [List.filterMap_cons, List.filter_cons, toPosSet_shift, hlen, hc, hrest]
      · simp [List.filterMap_cons, List.filter_cons, toPosSet_shift, hlen, hc, hrest]

/-- C9 counterexample: on the one-triple credential `dvcC9`/`ovcC9` (blank
subject `e1`), the derive side records the subject at message index 1 (after
the slot-0 secret) while the verify side records it at index 0; with two such
credentials the two sides build the meta-statement sets `[[(0,1),(1,1)]]` and
`[[(0,0),(1,0)]]`, which differ — verify does not reconstruct the same sets.
Moreover a singleton identifier yields no meta-statement only in the absence
of predicates: a predicate whose private-variable list references it adds a
position and makes it emit. -/
theorem equality_sets_not_reconstructed_counterexample :
    (get_disclosed_and_undisclosed_terms dvcC9 ovcC9 0 none).map DUTerms.equivs
        = .ok [(NamedOrBlankNode.blank "e1", [(0, 1)])]
    ∧ (get_disclosed_terms dvcC9 0).equivs = [(NamedOrBlankNode.blank "e1", [(0, 0)])]
    ∧ derive_meta_statements [] []
        (mergeEquivs [[(NamedOrBlankNode.blank "e1", [(0, 1)])],
          [(NamedOrBlankNode.blank "e1", [(1, 1)])]])
        = [[(0, 1), (1, 1)]]
    ∧ verify_meta_statements
        (mergeEquivs [[(NamedOrBlankNode.blank "e1", [(0, 0)])],
          [(NamedOrBlankNode.blank "e1", [(1, 0)])]])
        = [[(0, 0), (1, 0)]]
    ∧ [[((0 : Nat), (1 : Nat)), (1, 1)]] ≠ [[((0 : Nat), (0 : Nat)), (1, 0)]]
    ∧ derive_meta_statements [] [] [(NamedOrBlankNode.blank "e9", [(0, 7)])] = []
    ∧ derive_meta_statements [[("x", NamedOrBlankNode.blank "e9")]] [5]
        [(NamedOrBlankNode.blank "e9", [(0, 7)])] = [[(0, 7), (5, 0)]] :=
  ⟨rfl, rfl, rfl, rfl, by decide, rfl, rfl⟩

/-- C9 (corrected): each side emits exactly one term-equality meta-statement
per merged-table identifier whose position set has more than one element —
the merged table has one entry per identifier — and none for a
credential-singleton identifier in the absence of predicates; a predicate
whose private-variable list references the identifier contributes an extra
`(predicate statement index, position in private list)` pair, under which a
singleton does emit. The verify side rebuilds the sets by the same
per-identifier rule, but from its own position tables, which are the derive
tables with every message index lowered by one (only the derive side counts
the slot-0 secret), so the reconstructed sets are the shifted image of the
derive sets, not the same sets. -/
theorem term_equality_meta_statement_shift :
    (∀ (dvc : DisclosedVC) (ovc : VCTriples) (vc_index : Nat) (secret : Option String)
        (r : DUTerms),
      dvc.document.map Prod.fst = List.range' 0 dvc.document.length →
      dvc.proof.map Prod.fst = List.range' 0 dvc.proof.length →
      get_disclosed_and_undisclosed_terms dvc ovc vc_index secret = .ok r →
      r.equivs = shiftEquivs (get_disclosed_terms dvc vc_index).equivs)
    ∧ (∀ parts : List EquivMap, ((mergeEquivs parts).map Prod.fst).Nodup)
    ∧ (∀ parts : List EquivMap,
        (∀ kv ∈ mergeEquivs parts, kv.2.Nodup) →
        derive_meta_statements [] [] (mergeEquivs (parts.map shiftEquivs))
          = (verify_meta_statements (mergeEquivs parts)).map (List.map shiftPos))
    ∧ (∀ eqs : EquivMap, (∀ kv ∈ eqs, kv.2.Nodup) →
        derive_meta_statements [] [] eqs
          = eqs.filterMap (fun kv => if 1 < kv.2.length then some (toPosSet kv.2) else none)
        ∧ verify_meta_statements eqs
          = eqs.filterMap (fun kv => if 1 < kv.2.length then some (toPosSet kv.2) else none))
    ∧ (∀ (privs : List (String × NamedOrBlankNode)) (pidx : Nat)
        (id : NamedOrBlankNode) (p : Nat × Nat) (k : Nat),
        positionOfPrivate privs id = some k → ¬ (pidx, k) = p →
        derive_meta_statements [] [] [(id, [p])] = []
        ∧ derive_meta_statements [privs] [pidx] [(id, [p])] = [insertPos (pidx, k) [p]]) := by
  refine ⟨?_, mergeEquivs_keys_nodup, ?_, meta_statements_agree, ?_⟩
  · intro dvc ovc vci sec r h1 h2 h3
    exact get_du_equivs_shift dvc ovc vci sec r h1 h2 h3
  · intro parts hnd
    rw [mergeEquivs_shift]
    exact derive_meta_shift _ hnd
  · intro privs pidx id p k hpos hne
    constructor
    · rfl
    · unfold derive_meta_statements
      simp only [List.filterMap_cons, List.filterMap_nil]
      simp only [List.zip_cons_cons, List.zip_nil_left, List.foldl_cons, List.foldl_nil]
      rw [hpos]
      have hm : ¬ (pidx, k) ∈ toPosSet [p] := by
        rw [mem_toPosSet]
        simpa using hne
      have hlen : 1 < (insertPos (pidx, k) (toPosSet [p])).length := by
        rw [length_insertPos_of_not_mem _ _ hm]
        simp [toPosSet, insertPos]
      simp only [if_pos hlen]
      rfl

/-- C9 witness: the shift, keys-uniqueness, shifted-set, per-side and
predicate-augmentation components of `term_equality_meta_statement_shift`
instantiated on `dvcC9`/`ovcC9`, a two-position identifier `e1`, and a
predicate referencing the singleton identifier `e9`. -/
theorem term_equality_meta_statement_shift_witness :
    rC9.equivs = shiftEquivs (get_disclosed_terms dvcC9 0).equivs
    ∧ ((mergeEquivs [[(NamedOrBlankNode.blank "e1", [(0, 0), (1, 0)])]]).map Prod.fst).Nodup
    ∧ derive_meta_statements [] []
        (mergeEquivs ([[(NamedOrBlankNode.blank "e1", [(0, 0), (1, 0)])]].map shiftEquivs))
        = (verify_meta_statements
            (mergeEquivs [[(NamedOrBlankNode.blank "e1", [(0, 0), (1, 0)])]])).map
            (List.map shiftPos)
    ∧ derive_meta_statements [] [] [(NamedOrBlankNode.blank "e1", [(0, 0), (1, 0)])]
        = [(NamedOrBlankNode.blank "e1", [((0 : Nat), (0 : Nat)), (1, 0)])].filterMap
            (fun kv => if 1 < kv.2.length then some (toPosSet kv.2) else none)
    ∧ derive_meta_statements [] [] [(NamedOrBlankNode.blank "e9", [(0, 7)])] = []
    ∧ derive_meta_statements [[("x", NamedOrBlankNode.blank "e9")]] [5]
        [(NamedOrBlankNode.blank "e9", [(0, 7)])] = [insertPos (5, 0) [(0, 7)]] := by
  obtain ⟨hA, hB, hC, hD, hE⟩ := term_equality_meta_statement_shift
  have hEinst := hE [("x", NamedOrBlankNode.blank "e9")] 5 (NamedOrBlankNode.blank "e9")
    (0, 7) 0 (by decide) (by decide)
  exact ⟨hA dvcC9 ovcC9 0 none rC9 (by decide) (by decide) (by rfl),
    hB [[(NamedOrBlankNode.blank "e1", [(0, 0), (1, 0)])]],
    hC [[(NamedOrBlankNode.blank "e1", [(0, 0), (1, 0)])]] (by decide),
    (hD [(NamedOrBlankNode.blank "e1", [(0, 0), (1, 0)])] (by decide)).1,
    hEinst.1, hEinst.2⟩

/- C10 helper lemmas: each processed triple claims exactly the three indices
`idx`, `idx + 1`, `idx + 2`, each into exactly one of the two maps. -/

set_option maxHeartbeats 1600000 in
theorem build_du_union (dt : Option Triple) (idx vc : Nat) (orig : Triple)
    (st : DUState) (i : Nat) :
    (i ∈ (build_disclosed_and_undisclosed_terms dt idx vc orig st).disclosed.keys ∨
      i ∈ (build_disclosed_and_undisclosed_terms dt idx vc orig st).undisclosed.keys) ↔
    (i ∈ st.disclosed.keys ∨ i ∈ st.undisclosed.keys ∨
      i = idx ∨ i = idx + 1 ∨ i = idx + 2) := by
  unfold build_disclosed_and_undisclosed_terms
  cases dt with
  | none =>
      simp [FrMap.insert, FrMap.keys, List.map_append, List.mem_append] <;> tauto
  | some t =>
      obtain ⟨ts, tp, to2⟩ := t
      dsimp only
      cases ts <;> cases to2 <;>
        simp only [apply_ite DUState.disclosed, apply_ite DUState.undisclosed] <;>
        split_ifs <;>
        simp [FrMap.insert, FrMap.keys, List.map_append, List.mem_append,
          List.mem_singleton] <;>
        tauto

set_option maxHeartbeats 1600000 in
theorem build_du_disjoint (dt : Option Triple) (idx vc : Nat) (orig : Triple)
    (st : DUState)
    (hbound : ∀ k, (k ∈ st.disclosed.keys ∨ k ∈ st.undisclosed.keys) → k < idx)
    (hdisj : ∀ i, ¬ (i ∈ st.disclosed.keys ∧ i ∈ st.undisclosed.keys)) :
    ∀ i, ¬ (i ∈ (build_disclosed_and_undisclosed_terms dt idx vc orig st).disclosed.keys ∧
      i ∈ (build_disclosed_and_undisclosed_terms dt idx vc orig st).undisclosed.keys) := by
  intro i
  have hd : i ∈ st.disclosed.keys → i < idx := fun h => hbound i (Or.inl h)
  have hu : i ∈ st.undisclosed.keys → i < idx := fun h => hbound i (Or.inr h)
  have hdu := hdisj i
  rcases Nat.lt_or_ge i idx with hlt | hge
  · have e0 : ¬ i = idx := by omega
    have e1 : ¬ i = idx + 1 := by omega
    have e2 : ¬ i = idx + 2 := by omega
    unfold build_disclosed_and_undisclosed_terms
    cases dt with
    | none =>
        simp only [FrMap.insert, FrMap.keys, List.map_append, List.mem_append,
          List.map_cons, List.map_nil, List.mem_cons, List.not_mem_nil, or_false,
          List.mem_singleton, e0, e1, e2]
        exact hdu
    | some t =>
        obtain ⟨ts, tp, to2⟩ := t
        dsimp only
        cases ts <;> cases to2 <;>
          simp only [apply_ite DUState.disclosed, apply_ite DUState.undisclosed] <;>
          split_ifs <;>
          simp only [FrMap.insert, FrMap.keys, List.map_append, List.mem_append,
            List.map_cons, List.map_nil, List.mem_cons, List.not_mem_nil, or_false,
            List.mem_singleton, e0, e1, e2] <;>
          exact hdu
  · have nd : ¬ i ∈ List.map Prod.fst st.disclosed := fun hm => by have := hd hm; omega
    have nu : ¬ i ∈ List.map Prod.fst st.undisclosed := fun hm => by have := hu hm; omega
    unfold build_disclosed_and_undisclosed_terms
    cases dt with
    | none =>
        simp only [FrMap.insert, FrMap.keys, List.map_append, List.mem_append,
          List.map_cons, List.map_nil, List.mem_cons, List.not_mem_nil, or_false,
          List.mem_singleton, nd, nu, false_or, false_and, not_false_eq_true] <;>
          omega
    | some t =>
        obtain ⟨ts, tp, to2⟩ := t
        dsimp only
        cases ts <;> cases to2 <;>
          simp only [apply_ite DUState.disclosed, apply_ite DUState.undisclosed] <;>
          split_ifs <;>
          simp only [FrMap.insert, FrMap.keys, List.map_append, List.mem_append,
            List.map_cons, List.map_nil, List.mem_cons, List.not_mem_nil, or_false,
            List.mem_singleton, nd, nu, false_or, false_and, not_false_eq_true] <;>
          (first | omega | simp)

theorem processDU_invariant (orig : List Triple) (vc : Nat) :
    ∀ (ds : List (Nat × Option Triple)) (idx : Nat) (st st' : DUState) (idx' : Nat),
    processDUTriples orig vc ds idx st = .ok (st', idx') →
    (∀ i, (i ∈ st.disclosed.keys ∨ i ∈ st.undisclosed.keys) ↔ i < idx) →
    (∀ i, ¬ (i ∈ st.disclosed.keys ∧ i ∈ st.undisclosed.keys)) →
    idx' = idx + 3 * ds.length ∧
    (∀ i, (i ∈ st'.disclosed.keys ∨ i ∈ st'.undisclosed.keys) ↔ i < idx') ∧
    (∀ i, ¬ (i ∈ st'.disclosed.keys ∧ i ∈ st'.undisclosed.keys)) := by
  intro ds
  induction ds with
  | nil =>
      intro idx st st' idx' h hU hD
      unfold processDUTriples at h
      simp only [Except.ok.injEq, Prod.mk.injEq] at h
      obtain ⟨hst, hidx⟩ := h
      subst hst
      subst hidx
      exact ⟨by simp, hU, hD⟩
  | cons jd rest ih =>
      intro idx st st' idx' h hU hD
      obtain ⟨j, dt⟩ := jd
      unfold processDUTriples at h
      simp only [Bind.bind] at h
      rw [bind_ok] at h
      obtain ⟨o, ho, h⟩ := h
      have hU2 : ∀ i,
          (i ∈ (build_disclosed_and_undisclosed_terms dt idx vc o st).disclosed.keys ∨
            i ∈ (build_disclosed_and_undisclosed_terms dt idx vc o st).undisclosed.keys)
          ↔ i < idx + 3 := by
        intro i
        rw [build_du_union]
        have h' := hU i
        constructor
        · rintro (hm | hm | hm | hm | hm)
          · have := h'.mp (Or.inl hm); omega
          · have := h'.mp (Or.inr hm); omega
          · omega
          · omega
          · omega
        · intro hi
          rcases Nat.lt_or_ge i idx with hlt | hge
          · rcases h'.mpr hlt with hm | hm
            · exact Or.inl hm
            · exact Or.inr (Or.inl hm)
          · right; right; omega
      have hD2 := build_du_disjoint dt idx vc o st (fun k hk => (hU k).mp hk) hD
      obtain ⟨hlen, hU', hD'⟩ := ih (idx + 3) _ st' idx' h hU2 hD2
      refine ⟨?_, hU', hD'⟩
      simp only [List.length_cons]
      omega

/-- C10: for every credential processed during proof derivation, the disclosed
and undisclosed maps produced by `get_disclosed_and_undisclosed_terms`
partition the message indices: every index below `term_count` appears in
exactly one of the two maps, no index appears in both, and no index at or
beyond `term_count` appears in either. -/
theorem disclosed_undisclosed_partition (dvc : DisclosedVC) (ovc : VCTriples)
    (vc_index : Nat) (secret : Option String) (r : DUTerms)
    (h : get_disclosed_and_undisclosed_terms dvc ovc vc_index secret = .ok r) :
    (∀ i, i < r.term_count ↔ (i ∈ r.disclosed.keys ∨ i ∈ r.undisclosed.keys)) ∧
    (∀ i, ¬ (i ∈ r.disclosed.keys ∧ i ∈ r.undisclosed.keys)) := by
  unfold get_disclosed_and_undisclosed_terms at h
  simp only [Bind.bind] at h
  rw [bind_ok] at h
  obtain ⟨⟨st1, idx1⟩, h1, h⟩ := h
  dsimp only at h
  rw [bind_ok] at h
  obtain ⟨⟨st3, idx3⟩, h3, h⟩ := h
  dsimp only at h
  have hU0 : ∀ i,
      ((i ∈ (match secret with
        | some s => (⟨[], FrMap.insert [] 0 (hash_byte_to_field s), []⟩ : DUState)
        | none => ⟨FrMap.insert [] 0 (Fr.fromNat 1), [], []⟩).disclosed.keys ∨
        i ∈ (match secret with
        | some s => (⟨[], FrMap.insert [] 0 (hash_byte_to_field s), []⟩ : DUState)
        | none => ⟨FrMap.insert [] 0 (Fr.fromNat 1), [], []⟩).undisclosed.keys)
        ↔ i < 1) := by
    intro i
    cases secret <;> simp [FrMap.insert, FrMap.keys] <;> omega
  have hD0 : ∀ i,
      ¬ (i ∈ (match secret with
        | some s => (⟨[], FrMap.insert [] 0 (hash_byte_to_field s), []⟩ : DUState)
        | none => ⟨FrMap.insert [] 0 (Fr.fromNat 1), [], []⟩).disclosed.keys ∧
        i ∈ (match secret with
        | some s => (⟨[], FrMap.insert [] 0 (hash_byte_to_field s), []⟩ : DUState)
        | none => ⟨FrMap.insert [] 0 (Fr.fromNat 1), [], []⟩).undisclosed.keys) := by
    intro i
    cases secret <;> simp [FrMap.insert, FrMap.keys]
  obtain ⟨hlen1, hU1, hD1⟩ :=
    processDU_invariant ovc.document vc_index dvc.document 1 _ st1 idx1 h1 hU0 hD0
  have hU2 : ∀ i,
      ((i ∈ FrMap.keys (st1.disclosed.insert idx1 get_delimiter) ∨
        i ∈ st1.undisclosed.keys) ↔ i < idx1 + 1) := by
    intro i
    simp only [FrMap.insert, FrMap.keys, List.map_append, List.mem_append,
      List.map_cons, List.map_nil, List.mem_cons, List.not_mem_nil, or_false]
    constructor
    · rintro ((h' | h') | h')
      · have := (hU1 i).mp (Or.inl h'); omega
      · omega
      · have := (hU1 i).mp (Or.inr h'); omega
    · intro hi
      rcases Nat.lt_or_ge i idx1 with hlt | hge
      · rcases (hU1 i).mpr hlt with h' | h'
        · exact Or.inl (Or.inl h')
        · exact Or.inr h'
      · exact Or.inl (Or.inr (by omega))
  have hD2 : ∀ i,
      ¬ (i ∈ FrMap.keys (st1.disclosed.insert idx1 get_delimiter) ∧
        i ∈ st1.undisclosed.keys) := by
    rintro i ⟨h1', h2'⟩
    simp only [FrMap.insert, FrMap.keys, List.map_append, List.mem_append,
      List.map_cons, List.map_nil, List.mem_cons, List.not_mem_nil, or_false] at h1'
    rcases h1' with h' | h'
    · exact hD1 i ⟨h', h2'⟩
    · have := (hU1 i).mp (Or.inr h2'); omega
  obtain ⟨hlen3, hU3, hD3⟩ :=
    processDU_invariant ovc.proof vc_index dvc.proof (idx1 + 1) _ st3 idx3 h3 hU2 hD2
  simp only [Except.ok.injEq] at h
  subst h
  exact ⟨fun i => (hU3 i).symm, hD3⟩

/-- C10 witness: a bound credential with one document triple (disclosed) and
one proof triple (hidden) partitions indices 0..7. -/
theorem disclosed_undisclosed_partition_witness :
    (∀ i,
      i < (DUTerms.mk
        [(0, Fr.fromNat 1),
         (1, hash_term_to_field (RdfTerm.namedNode "did:example:john")),
         (2, hash_term_to_field (RdfTerm.namedNode "http://schema.org/name")),
         (3, hash_term_to_field (RdfTerm.literal ⟨.str "John Smith", none, none⟩)),
         (4, get_delimiter)]
        [(5, hash_term_to_field (RdfTerm.namedNode "urn:a")),
         (6, hash_term_to_field (RdfTerm.namedNode "urn:b")),
         (7, hash_term_to_field (RdfTerm.namedNode "urn:c"))]
        [] 8).term_count ↔
      (i ∈ (DUTerms.mk
        [(0, Fr.fromNat 1),
         (1, hash_term_to_field (RdfTerm.namedNode "did:example:john")),
         (2, hash_term_to_field (RdfTerm.namedNode "http://schema.org/name")),
         (3, hash_term_to_field (RdfTerm.literal ⟨.str "John Smith", none, none⟩)),
         (4, get_delimiter)]
        [(5, hash_term_to_field (RdfTerm.namedNode "urn:a")),
         (6, hash_term_to_field (RdfTerm.namedNode "urn:b")),
         (7, hash_term_to_field (RdfTerm.namedNode "urn:c"))]
        [] 8).disclosed.keys ∨
       i ∈ (DUTerms.mk
        [(0, Fr.fromNat 1),
         (1, hash_term_to_field (RdfTerm.namedNode "did:example:john")),
         (2, hash_term_to_field (RdfTerm.namedNode "http://schema.org/name")),
         (3, hash_term_to_field (RdfTerm.literal ⟨.str "John Smith", none, none⟩)),
         (4, get_delimiter)]
        [(5, hash_term_to_field (RdfTerm.namedNode "urn:a")),
         (6, hash_term_to_field (RdfTerm.namedNode "urn:b")),
         (7, hash_term_to_field (RdfTerm.namedNode "urn:c"))]
        [] 8).undisclosed.keys)) ∧
    (∀ i, ¬ (i ∈ (DUTerms.mk
        [(0, Fr.fromNat 1),
         (1, hash_term_to_field (RdfTerm.namedNode "did:example:john")),
         (2, hash_term_to_field (RdfTerm.namedNode "http://schema.org/name")),
         (3, hash_term_to_field (RdfTerm.literal ⟨.str "John Smith", none, none⟩)),
         (4, get_delimiter)]
        [(5, hash_term_to_field (RdfTerm.namedNode "urn:a")),
         (6, hash_term_to_field (RdfTerm.namedNode "urn:b")),
         (7, hash_term_to_field (RdfTerm.namedNode "urn:c"))]
        [] 8).disclosed.keys ∧
      i ∈ (DUTerms.mk
        [(0, Fr.fromNat 1),
         (1, hash_term_to_field (RdfTerm.namedNode "did:example:john")),
         (2, hash_term_to_field (RdfTerm.namedNode "http://schema.org/name")),
         (3, hash_term_to_field (RdfTerm.literal ⟨.str "John Smith", none, none⟩)),
         (4, get_delimiter)]
        [(5, hash_term_to_field (RdfTerm.namedNode "urn:a")),
         (6, hash_term_to_field (RdfTerm.namedNode "urn:b")),
         (7, hash_term_to_field (RdfTerm.namedNode "urn:c"))]
        [] 8).undisclosed.keys)) := by
  refine disclosed_undisclosed_partition
    ⟨[(0, some ⟨.namedNode "did:example:john", "http://schema.org/name",
        .literal ⟨.str "John Smith", none, none⟩⟩)],
      [(0, none)]⟩
    ⟨[⟨.namedNode "did:example:john", "http://schema.org/name",
        .literal ⟨.str "John Smith", none, none⟩⟩],
      [⟨.namedNode "urn:a", "urn:b", .namedNode "urn:c"⟩]⟩
    0 none _ (by rfl)

end RDFProofs
